import Mathlib

/-!
Verification of the selector language of `src/selector.rs` (crate `bochi`).

The Rust source is shallowly embedded as follows.

* Rust `String` / `&str` values become `List Char` (abbreviated `Chars`).
  The Rust parser stores a cursor `pos` that it moves with
  `peek`/`advance` (character-indexed via `chars().nth(pos)`) and also
  uses for slicing (byte-indexed).  The embedding uses character indices
  throughout; for ASCII input both indexings coincide, and every string
  appearing in the theorems below is ASCII.
* The character classes `char::is_whitespace` / `char::is_alphanumeric`
  are embedded as `Char.isWhitespace` / `Char.isAlphanum`; these agree
  with Rust on ASCII characters.
* Rust scanning loops that only advance the cursor (`skip_whitespace`,
  the identifier / value scans, the parenthesis-depth scan of
  `parse_inner_selector`) are embedded as functions of the remaining
  suffix of the input (`List.takeWhile`, or structural recursion on the
  suffix), which is exactly what the loops compute.
* The mutually recursive grammar productions are embedded as a mutual
  block structurally recursive on an explicit `fuel` argument that is
  decremented at every call between the productions.  Running out of
  fuel is a distinguished result (`PRes.nofuel`) that is propagated like
  a Rust panic and is never confused with a parse error.  The top level
  runs with fuel `10 * length + 20`, far above the one-unit-per-call
  consumption of the productions (each loop iteration consumes at least
  one input character, and nesting of `:has(...)` consumes five).
* A Rust `panic!` (an out-of-bounds slice) is the distinguished result
  `PRes.panicked`; `Ok`/`Err` become `PRes.ok`/`PRes.fail`.
-/

abbrev Chars := List Char

/-- shorthand turning a string literal into the character list the embedding works on -/
def chars (s : String) : Chars := s.toList

/-- embedding of `enum AttrOp` (src/selector.rs:57-63) -/
inductive AttrOp where
  | equals
  | startsWith
  | endsWith
  | contains
deriving DecidableEq, Repr

/-- embedding of `struct AttrClause` (src/selector.rs:50-55) -/
structure AttrClause where
  attr : Chars
  op : AttrOp
  value : Chars
deriving DecidableEq, Repr

/-- embedding of `enum Selector` (src/selector.rs:22-48) -/
inductive Selector where
  | and (clauses : List AttrClause)
  | or (selectors : List Selector)
  | has (inner : Selector)
  | not (inner : Selector)
  | complex (attrs : List AttrClause) (hasSel : Option Selector) (notSel : Option Selector)
  | child (parent child : Selector)
  | descendant (ancestor descendant : Selector)

/-- result of running a piece of the Rust parser: `Ok`, `Err`, a Rust
panic, or exhaustion of the fuel of the embedding (never confused with
the previous three) -/
inductive PRes (α : Type) where
  | ok (val : α)
  | fail (msg : String)
  | panicked
  | nofuel
deriving DecidableEq, Repr

/-- sequencing of parser steps: `fail`, `panicked` and `nofuel` short-circuit -/
def PRes.bind {α β : Type} (x : PRes α) (f : α → PRes β) : PRes β :=
  match x with
  | .ok a => f a
  | .fail e => .fail e
  | .panicked => .panicked
  | .nofuel => .nofuel

/-- embedding of `SelectorParser::peek` (src/selector.rs:672-674): the
character at cursor position `pos`, counted in characters -/
def peek (input : Chars) (pos : Nat) : Option Char := (input.drop pos).head?

/-- embedding of `SelectorParser::advance` (src/selector.rs:677-681) -/
def advance (input : Chars) (pos : Nat) : Nat :=
  if pos < input.length then pos + 1 else pos

/-- embedding of `SelectorParser::is_eof` (src/selector.rs:695-697) -/
def isEof (input : Chars) (pos : Nat) : Bool := input.length ≤ pos

/-- embedding of `SelectorParser::skip_whitespace` (src/selector.rs:684-692):
the loop advances exactly over the leading whitespace of the remaining input -/
def skipWs (input : Chars) (pos : Nat) : Nat :=
  pos + ((input.drop pos).takeWhile Char.isWhitespace).length

/-- embedding of `str::trim` as used by `Selector::parse` and `parse_legacy` -/
def trimChars (s : Chars) : Chars :=
  ((s.dropWhile Char.isWhitespace).reverse.dropWhile Char.isWhitespace).reverse

/-- embedding of `SelectorParser::expect_char` (src/selector.rs:654-669) -/
def expectChar (input : Chars) (pos : Nat) (expected : Char) : PRes Nat :=
  match peek input pos with
  | some c =>
    if c = expected then .ok (advance input pos)
    else .fail ("Expected '" ++ toString expected ++ "' but found '" ++ toString c
        ++ "' at position " ++ toString pos)
  | none => .fail ("Expected '" ++ toString expected ++ "' but reached end of input")

/-- embedding of `SelectorParser::expect_str` (src/selector.rs:641-651);
the Rust byte length of the expected token equals its character length
(the tokens are ASCII) -/
def expectStr (input : Chars) (pos : Nat) (s : Chars) : PRes Nat :=
  if s.isPrefixOf (input.drop pos) then .ok (pos + s.length)
  else .fail ("Expected '" ++ s.asString ++ "' at position " ++ toString pos)

/-- identifier characters accepted by `SelectorParser::parse_identifier` -/
def isIdentChar (c : Char) : Bool := c.isAlphanum || c = '_' || c = '-'

/-- embedding of `SelectorParser::parse_identifier` (src/selector.rs:579-595):
the loop advances exactly over the leading identifier characters -/
def parseIdentifier (input : Chars) (pos : Nat) : PRes (Chars × Nat) :=
  let seg := (input.drop pos).takeWhile isIdentChar
  if seg.isEmpty then .fail ("Expected identifier at position " ++ toString pos)
  else .ok (seg, pos + seg.length)

/-- embedding of `SelectorParser::parse_operator` (src/selector.rs:549-576) -/
def parseOperator (input : Chars) (pos : Nat) : PRes (AttrOp × Nat) :=
  match peek input pos with
  | some '^' => (expectChar input (advance input pos) '=').bind fun p => .ok (.startsWith, p)
  | some '$' => (expectChar input (advance input pos) '=').bind fun p => .ok (.endsWith, p)
  | some '*' => (expectChar input (advance input pos) '=').bind fun p => .ok (.contains, p)
  | some '=' => .ok (.equals, advance input pos)
  | some c => .fail ("Expected operator (=, ^=, $=, *=) but found '" ++ toString c
      ++ "' at position " ++ toString pos)
  | none => .fail "Expected operator (=, ^=, $=, *=) but reached end of input"

/-- embedding of `SelectorParser::parse_quoted_string` (src/selector.rs:607-621):
the loop scans to the first occurrence of the quote; if none exists the
string is unterminated -/
def parseQuotedString (input : Chars) (pos : Nat) (quote : Char) : PRes (Chars × Nat) :=
  (expectChar input pos quote).bind fun p1 =>
    let suf := input.drop p1
    let seg := suf.takeWhile (fun c => c != quote)
    if seg.length < suf.length then .ok (seg, p1 + seg.length + 1)
    else .fail ("Unterminated string starting at position " ++ toString (p1 - 1))

/-- characters that stop an unquoted value (`]`, `,`, whitespace) -/
def isValueStop (c : Char) : Bool := c = ']' || c = ',' || c.isWhitespace

/-- embedding of `SelectorParser::parse_unquoted_value` (src/selector.rs:625-638) -/
def parseUnquotedValue (input : Chars) (pos : Nat) : PRes (Chars × Nat) :=
  let seg := (input.drop pos).takeWhile (fun c => !isValueStop c)
  .ok (seg, pos + seg.length)

/-- embedding of `SelectorParser::parse_value` (src/selector.rs:598-604) -/
def parseValue (input : Chars) (pos : Nat) : PRes (Chars × Nat) :=
  match peek input pos with
  | some '"' => parseQuotedString input pos '"'
  | some '\'' => parseQuotedString input pos '\''
  | _ => parseUnquotedValue input pos

/-- the `{:?}` (Debug) rendering of `AttrOp` used in the empty-value error message -/
def AttrOp.debugStr : AttrOp → String
  | .equals => "Equals"
  | .startsWith => "StartsWith"
  | .endsWith => "EndsWith"
  | .contains => "Contains"

/-- embedding of `SelectorParser::parse_attr_clause` (src/selector.rs:517-546) -/
def parseAttrClause (input : Chars) (pos : Nat) : PRes (AttrClause × Nat) :=
  (expectChar input pos '[').bind fun p1 =>
  (parseIdentifier input (skipWs input p1)).bind fun av =>
  (parseOperator input (skipWs input av.2)).bind fun ov =>
  (parseValue input (skipWs input ov.2)).bind fun vv =>
  (match ov.1 with
   | .startsWith | .endsWith | .contains =>
     if vv.1.isEmpty then
       PRes.fail ("Empty value not allowed for " ++ ov.1.debugStr ++ " operator")
     else .ok ()
   | .equals => .ok ()).bind fun _ =>
  (expectChar input (skipWs input vv.2) ']').bind fun p9 =>
  .ok (⟨av.1, ov.1, vv.1⟩, p9)

/-- embedding of the quote-stripping step of `Selector::parse_legacy`
(src/selector.rs:92-96).  Rust takes the byte slice `value[1..len-1]`
whenever the value both starts and ends with the same quote character;
for a one-character value this is the invalid range `1..0` and panics. -/
def legacyStripQuotes (v : Chars) : PRes Chars :=
  if (v.head? == some '"' && v.getLast? == some '"')
     || (v.head? == some '\'' && v.getLast? == some '\'') then
    if v.length < 2 then .panicked
    else .ok ((v.drop 1).take (v.length - 2))
  else .ok v

/-- embedding of `Selector::parse_legacy` (src/selector.rs:83-109).
(When the input contains `=`, `splitn(2, '=')` always yields exactly two
parts, so the Rust `parts.len() == 2` test is always true there.) -/
def parseLegacy (s : Chars) : PRes Selector :=
  if s.contains '=' && !s.contains '[' && !s.contains ':' then
    let field := trimChars (s.takeWhile (fun c => c != '='))
    (legacyStripQuotes (trimChars ((s.dropWhile (fun c => c != '=')).drop 1))).bind
      fun value =>
        if !field.isEmpty && !value.isEmpty then
          .ok (.and [⟨field, .equals, value⟩])
        else .fail ("Invalid selector format: " ++ s.asString)
  else .fail ("Invalid selector format: " ++ s.asString)

/-- embedding of the parenthesis-depth scan of
`SelectorParser::parse_inner_selector` (src/selector.rs:460-477): the
number of characters the loop advances over, as a function of the
remaining input and the current depth -/
def innerLen : Chars → Nat → Nat
  | _, 0 => 0
  | [], _ + 1 => 0
  | c :: t, d + 1 =>
    if c = '(' then innerLen t (d + 2) + 1
    else if c = ')' then (if d = 0 then 0 else innerLen t d + 1)
    else innerLen t (d + 1) + 1

/-- the token `":has("` -/
def hasToken : Chars := chars ":has("

/-- the token `":not("` -/
def notToken : Chars := chars ":not("

mutual

/-- embedding of `Selector::parse` (src/selector.rs:68-80): try the
primary grammar, fall back to the legacy grammar on a parse error -/
def selParseF : Nat → Chars → PRes Selector
  | 0, _ => .nofuel
  | fuel + 1, s =>
    let trimmed := trimChars s
    match parserParseF fuel trimmed with
    | .ok sel => .ok sel
    | .fail _ => parseLegacy trimmed
    | .panicked => .panicked
    | .nofuel => .nofuel
termination_by structural fuel _ => fuel

/-- embedding of `SelectorParser::parse` (src/selector.rs:232-240) -/
def parserParseF : Nat → Chars → PRes Selector
  | 0, _ => .nofuel
  | fuel + 1, input =>
    match parseOrExprF fuel input (skipWs input 0) with
    | .ok (sel, p1) =>
      let p2 := skipWs input p1
      if isEof input p2 then .ok sel
      else .fail ("Unexpected characters at position " ++ toString p2)
    | .fail e => .fail e
    | .panicked => .panicked
    | .nofuel => .nofuel
termination_by structural fuel _ => fuel

/-- embedding of `SelectorParser::parse_or_expr` (src/selector.rs:243-281),
with the loop split off as `orLoopF` -/
def parseOrExprF : Nat → Chars → Nat → PRes (Selector × Nat)
  | 0, _, _ => .nofuel
  | fuel + 1, input, pos =>
    match orLoopF fuel input pos [] with
    | .ok (sels, p) =>
      match sels with
      | [] => .fail "Empty selector"
      | [s] => .ok (s, p)
      | _ => .ok (.or sels, p)
    | .fail e => .fail e
    | .panicked => .panicked
    | .nofuel => .nofuel
termination_by structural fuel _ _ => fuel

/-- embedding of the loop of `parse_or_expr` (src/selector.rs:246-270);
each iteration parses one descendant chain and consumes at least one
character -/
def orLoopF : Nat → Chars → Nat → List Selector → PRes (List Selector × Nat)
  | 0, _, _, _ => .nofuel
  | fuel + 1, input, pos, acc =>
    let p := skipWs input pos
    if isEof input p then .ok (acc, p)
    else if peek input p == some ',' then .fail "Empty selector in OR expression"
    else
      match parseDescChainF fuel input p with
      | .ok (sel, p1) =>
        let p2 := skipWs input p1
        if peek input p2 == some ',' then
          let p4 := skipWs input (advance input p2)
          if isEof input p4 || peek input p4 == some ',' then
            .fail "Empty selector in OR expression"
          else orLoopF fuel input p4 (acc ++ [sel])
        else .ok (acc ++ [sel], p2)
      | .fail e => .fail e
      | .panicked => .panicked
      | .nofuel => .nofuel
termination_by structural fuel _ _ _ => fuel

/-- embedding of `SelectorParser::parse_descendant_chain`
(src/selector.rs:285-328), with the loop split off as `descLoopF` -/
def parseDescChainF : Nat → Chars → Nat → PRes (Selector × Nat)
  | 0, _, _ => .nofuel
  | fuel + 1, input, pos =>
    match parseChildCombF fuel input pos with
    | .ok (left, p1) => descLoopF fuel input p1 left
    | .fail e => .fail e
    | .panicked => .panicked
    | .nofuel => .nofuel
termination_by structural fuel _ _ => fuel

/-- embedding of the loop of `parse_descendant_chain`
(src/selector.rs:289-325).  On EOF/`,`/`)` the loop breaks after the
whitespace skip; on `>` or any other character it restores the saved
position and breaks. -/
def descLoopF : Nat → Chars → Nat → Selector → PRes (Selector × Nat)
  | 0, _, _, _ => .nofuel
  | fuel + 1, input, pos, left =>
    let p := skipWs input pos
    if isEof input p || peek input p == some ',' || peek input p == some ')' then
      .ok (left, p)
    else
      match peek input p with
      | some '[' | some ':' =>
        match parseChildCombF fuel input p with
        | .ok (right, p2) => descLoopF fuel input p2 (.descendant left right)
        | .fail e => .fail e
        | .panicked => .panicked
        | .nofuel => .nofuel
      | _ => .ok (left, pos)
termination_by structural fuel _ _ _ => fuel

/-- embedding of `SelectorParser::parse_child_combinator`
(src/selector.rs:332-355), with the loop split off as `childLoopF` -/
def parseChildCombF : Nat → Chars → Nat → PRes (Selector × Nat)
  | 0, _, _ => .nofuel
  | fuel + 1, input, pos =>
    match parseComplexSelF fuel input pos with
    | .ok (left, p1) => childLoopF fuel input p1 left
    | .fail e => .fail e
    | .panicked => .panicked
    | .nofuel => .nofuel
termination_by structural fuel _ _ => fuel

/-- embedding of the loop of `parse_child_combinator`
(src/selector.rs:335-352) -/
def childLoopF : Nat → Chars → Nat → Selector → PRes (Selector × Nat)
  | 0, _, _, _ => .nofuel
  | fuel + 1, input, pos, left =>
    let p := skipWs input pos
    if peek input p == some '>' then
      match parseComplexSelF fuel input (skipWs input (advance input p)) with
      | .ok (right, p3) => childLoopF fuel input p3 (.child left right)
      | .fail e => .fail e
      | .panicked => .panicked
      | .nofuel => .nofuel
    else .ok (left, p)
termination_by structural fuel _ _ _ => fuel

/-- embedding of `SelectorParser::parse_complex_selector`
(src/selector.rs:358-368): a leading `:has(`/`:not(` returns a bare
pseudo-class selector; otherwise control falls through to the attribute
clauses and suffixes, embedded as `complexAfterF` -/
def parseComplexSelF : Nat → Chars → Nat → PRes (Selector × Nat)
  | 0, _, _ => .nofuel
  | fuel + 1, input, pos =>
    let p := skipWs input pos
    if peek input p == some ':' && hasToken.isPrefixOf (input.drop p) then
      parseHasSelF fuel input p
    else if peek input p == some ':' && notToken.isPrefixOf (input.drop p) then
      parseNotSelF fuel input p
    else complexAfterF fuel input p
termination_by structural fuel _ _ => fuel

/-- embedding of the rest of `parse_complex_selector`
(src/selector.rs:370-417): attribute clauses, then optional
`:has(...)`/`:not(...)` suffixes -/
def complexAfterF : Nat → Chars → Nat → PRes (Selector × Nat)
  | 0, _, _ => .nofuel
  | fuel + 1, input, pos =>
    match parseAttrClausesF fuel input pos with
    | .ok (clauses, p1) =>
      let p2 := skipWs input p1
      if peek input p2 == some ':' then
        match suffixLoopF fuel input p2 none none with
        | .ok (hasSel, notSel, p3) =>
          if clauses.isEmpty && hasSel.isNone && notSel.isNone then
            .fail "Expected attribute clause, :has() or :not()"
          else if hasSel.isSome || notSel.isSome then
            .ok (.complex clauses hasSel notSel, p3)
          else if clauses.isEmpty then .fail "Expected attribute clause"
          else .ok (.and clauses, p3)
        | .fail e => .fail e
        | .panicked => .panicked
        | .nofuel => .nofuel
      else
        if clauses.isEmpty then .fail "Expected attribute clause, :has() or :not()"
        else .ok (.and clauses, p2)
    | .fail e => .fail e
    | .panicked => .panicked
    | .nofuel => .nofuel
termination_by structural fuel _ _ => fuel

/-- embedding of the suffix loop of `parse_complex_selector`
(src/selector.rs:380-395): each further `:has(...)`/`:not(...)`
overwrites the previously stored selector of its kind -/
def suffixLoopF : Nat → Chars → Nat → Option Selector → Option Selector →
    PRes (Option Selector × Option Selector × Nat)
  | 0, _, _, _, _ => .nofuel
  | fuel + 1, input, pos, hasSel, notSel =>
    let p := skipWs input pos
    if peek input p != some ':' then .ok (hasSel, notSel, p)
    else if hasToken.isPrefixOf (input.drop p) then
      match parseHasSuffixF fuel input p with
      | .ok (inner, p1) => suffixLoopF fuel input p1 (some inner) notSel
      | .fail e => .fail e
      | .panicked => .panicked
      | .nofuel => .nofuel
    else if notToken.isPrefixOf (input.drop p) then
      match parseNotSuffixF fuel input p with
      | .ok (inner, p1) => suffixLoopF fuel input p1 hasSel (some inner)
      | .fail e => .fail e
      | .panicked => .panicked
      | .nofuel => .nofuel
    else .ok (hasSel, notSel, p)
termination_by structural fuel _ _ _ _ => fuel

/-- embedding of `SelectorParser::parse_has_selector` (src/selector.rs:420-425) -/
def parseHasSelF : Nat → Chars → Nat → PRes (Selector × Nat)
  | 0, _, _ => .nofuel
  | fuel + 1, input, pos =>
    match expectStr input pos hasToken with
    | .ok p1 =>
      match parseInnerSelF fuel input p1 with
      | .ok (inner, p2) =>
        match expectChar input p2 ')' with
        | .ok p3 => .ok (.has inner, p3)
        | .fail e => .fail e
        | .panicked => .panicked
        | .nofuel => .nofuel
      | .fail e => .fail e
      | .panicked => .panicked
      | .nofuel => .nofuel
    | .fail e => .fail e
    | .panicked => .panicked
    | .nofuel => .nofuel
termination_by structural fuel _ _ => fuel

/-- embedding of `SelectorParser::parse_not_selector` (src/selector.rs:428-433) -/
def parseNotSelF : Nat → Chars → Nat → PRes (Selector × Nat)
  | 0, _, _ => .nofuel
  | fuel + 1, input, pos =>
    match expectStr input pos notToken with
    | .ok p1 =>
      match parseInnerSelF fuel input p1 with
      | .ok (inner, p2) =>
        match expectChar input p2 ')' with
        | .ok p3 => .ok (.not inner, p3)
        | .fail e => .fail e
        | .panicked => .panicked
        | .nofuel => .nofuel
      | .fail e => .fail e
      | .panicked => .panicked
      | .nofuel => .nofuel
    | .fail e => .fail e
    | .panicked => .panicked
    | .nofuel => .nofuel
termination_by structural fuel _ _ => fuel

/-- embedding of `SelectorParser::parse_has_selector_suffix`
(src/selector.rs:436-443): returns the inner selector unwrapped -/
def parseHasSuffixF : Nat → Chars → Nat → PRes (Selector × Nat)
  | 0, _, _ => .nofuel
  | fuel + 1, input, pos =>
    match expectStr input pos hasToken with
    | .ok p1 =>
      match parseInnerSelF fuel input p1 with
      | .ok (inner, p2) =>
        match expectChar input p2 ')' with
        | .ok p3 => .ok (inner, p3)
        | .fail e => .fail e
        | .panicked => .panicked
        | .nofuel => .nofuel
      | .fail e => .fail e
      | .panicked => .panicked
      | .nofuel => .nofuel
    | .fail e => .fail e
    | .panicked => .panicked
    | .nofuel => .nofuel
termination_by structural fuel _ _ => fuel

/-- embedding of `SelectorParser::parse_not_selector_suffix`
(src/selector.rs:446-453): returns the inner selector unwrapped -/
def parseNotSuffixF : Nat → Chars → Nat → PRes (Selector × Nat)
  | 0, _, _ => .nofuel
  | fuel + 1, input, pos =>
    match expectStr input pos notToken with
    | .ok p1 =>
      match parseInnerSelF fuel input p1 with
      | .ok (inner, p2) =>
        match expectChar input p2 ')' with
        | .ok p3 => .ok (inner, p3)
        | .fail e => .fail e
        | .panicked => .panicked
        | .nofuel => .nofuel
      | .fail e => .fail e
      | .panicked => .panicked
      | .nofuel => .nofuel
    | .fail e => .fail e
    | .panicked => .panicked
    | .nofuel => .nofuel
termination_by structural fuel _ _ => fuel

/-- embedding of `SelectorParser::parse_inner_selector`
(src/selector.rs:456-484): scan to the matching closing parenthesis and
parse the scanned substring recursively with `Selector::parse` -/
def parseInnerSelF : Nat → Chars → Nat → PRes (Selector × Nat)
  | 0, _, _ => .nofuel
  | fuel + 1, input, pos =>
    let p0 := skipWs input pos
    let n := innerLen (input.drop p0) 1
    match selParseF fuel ((input.drop p0).take n) with
    | .ok sel => .ok (sel, p0 + n)
    | .fail e => .fail ("Invalid selector inside :has(): " ++ e)
    | .panicked => .panicked
    | .nofuel => .nofuel
termination_by structural fuel _ _ => fuel

/-- embedding of `SelectorParser::parse_attr_clauses`
(src/selector.rs:488-514), with the loop as `attrLoopF` -/
def parseAttrClausesF : Nat → Chars → Nat → PRes (List AttrClause × Nat)
  | 0, _, _ => .nofuel
  | fuel + 1, input, pos => attrLoopF fuel input pos []

/-- embedding of the loop of `parse_attr_clauses`
(src/selector.rs:491-511): stop (restoring the saved position) when the
next non-whitespace character is not `[`, or when whitespace was skipped
and at least one clause was already parsed -/
def attrLoopF : Nat → Chars → Nat → List AttrClause → PRes (List AttrClause × Nat)
  | 0, _, _, _ => .nofuel
  | fuel + 1, input, pos, acc =>
    let p := skipWs input pos
    if peek input p != some '[' then .ok (acc, pos)
    else if pos < p && !acc.isEmpty then .ok (acc, pos)
    else
      match parseAttrClause input p with
      | .ok (c, p1) => attrLoopF fuel input p1 (acc ++ [c])
      | .fail e => .fail e
      | .panicked => .panicked
      | .nofuel => .nofuel
termination_by structural fuel _ _ _ => fuel

end

/-- fuel used for the top-level entry point: far above the actual
consumption, which is bounded by a handful of units per input character -/
def fuelOf (s : Chars) : Nat := 10 * s.length + 20

/-- the model of `Selector::parse` run with the standard fuel -/
def Selector.parse (s : Chars) : PRes Selector := selParseF (fuelOf s) s

/-- model of a `roxmltree` node: an element with attributes and ordered
children, or a non-element node (text, comment, root container).  The
matcher only inspects `is_element`, `attribute`, `children` and
`parent`; on non-element nodes `attribute` returns `None` and
`children` is empty, as in `roxmltree`. -/
inductive XNode where
  | element (attrs : List (Chars × Chars)) (children : List XNode)
  | text (content : Chars)

/-- model of `roxmltree::Node::is_element` -/
def XNode.isElement : XNode → Bool
  | .element _ _ => true
  | .text _ => false

/-- model of `roxmltree::Node::attribute` (first attribute of that name) -/
def XNode.attribute : XNode → Chars → Option Chars
  | .element attrs _, name => (attrs.find? (fun p => p.1 == name)).map (fun p => p.2)
  | .text _, _ => none

/-- model of `roxmltree::Node::children` -/
def XNode.childNodes : XNode → List XNode
  | .element _ cs => cs
  | .text _ => []

/-- a node together with its chain of ancestors (nearest first).  This
realises `roxmltree`'s `parent()` back-reference: the parent of
`⟨n, a :: rest⟩` is `⟨a, rest⟩`, and `⟨n, []⟩` has no parent. -/
structure NodeLoc where
  node : XNode
  ancestors : List XNode

/-- the attribute-alias resolution performed inline by the `match` of
`AttrClause::matches` (src/selector.rs:162-182).  The arms for `text`,
`class`, `package`, `checkable`, ..., `bounds` look up the attribute
under its own name, exactly like the fall-through arm, so they are
collapsed into it here. -/
def resolveAttr (a : Chars) : Chars :=
  if a = chars "contentDescription" ∨ a = chars "content-description"
      ∨ a = chars "content_desc" then chars "content-desc"
  else if a = chars "resourceId" ∨ a = chars "resource-id"
      ∨ a = chars "resource_id" then chars "resource-id"
  else if a = chars "long-clickable" ∨ a = chars "long_clickable" then chars "long-clickable"
  else a

/-- model of `str::contains` (substring test; the empty pattern is
contained in every string) -/
def charsContains (s pat : Chars) : Bool :=
  if pat.isPrefixOf s then true
  else
    match s with
    | [] => false
    | _ :: t => charsContains t pat

/-- embedding of `AttrClause::matches` (src/selector.rs:161-193) -/
def AttrClause.matchesNode (c : AttrClause) (n : XNode) : Bool :=
  match n.attribute (resolveAttr c.attr) with
  | some v =>
    match c.op with
    | .equals => v == c.value
    | .startsWith => c.value.isPrefixOf v
    | .endsWith => c.value.isSuffixOf v
    | .contains => charsContains v c.value
  | none => false

mutual

/-- embedding of `Selector::matches` (src/selector.rs:112-157) -/
def Selector.matches (sel : Selector) (loc : NodeLoc) : Bool :=
  if !loc.node.isElement then false
  else
    match sel with
    | .and clauses => clauses.all (fun c => c.matchesNode loc.node)
    | .or sels => orAnyMatches sels loc
    | .has inner => hasDescendantMatching inner loc
    | .not inner => !Selector.matches inner loc
    | .complex attrs hasSel notSel =>
      (attrs.all (fun c => c.matchesNode loc.node)) &&
      (match hasSel with
       | some inner => hasDescendantMatching inner loc
       | none => true) &&
      (match notSel with
       | some inner => !Selector.matches inner loc
       | none => true)
    | .child parentSel childSel =>
      if !Selector.matches childSel loc then false
      else
        match loc.ancestors with
        | p :: rest => Selector.matches parentSel ⟨p, rest⟩
        | [] => false
    | .descendant ancestorSel descendantSel =>
      if !Selector.matches descendantSel loc then false
      else hasAncestorMatching ancestorSel loc
termination_by (sizeOf sel, 0, 0)

/-- embedding of the `iter().any` of the `Or` arm of `Selector::matches` -/
def orAnyMatches (sels : List Selector) (loc : NodeLoc) : Bool :=
  match sels with
  | [] => false
  | s :: rest => Selector.matches s loc || orAnyMatches rest loc
termination_by (sizeOf sels, 1, 0)

/-- embedding of `has_descendant_matching` (src/selector.rs:197-207) -/
def hasDescendantMatching (sel : Selector) (loc : NodeLoc) : Bool :=
  match loc with
  | ⟨.element a cs, anc⟩ => childScanMatching sel cs (XNode.element a cs :: anc)
  | ⟨.text _, _⟩ => false
termination_by (sizeOf sel, 2, sizeOf loc.node)

/-- embedding of the `for child in node.children()` loop of
`has_descendant_matching`: each child location shares the ancestor chain -/
def childScanMatching (sel : Selector) (cs : List XNode) (anc : List XNode) : Bool :=
  match cs with
  | [] => false
  | c :: rest =>
    Selector.matches sel ⟨c, anc⟩ || hasDescendantMatching sel ⟨c, anc⟩
      || childScanMatching sel rest anc
termination_by (sizeOf sel, 2, sizeOf cs)

/-- embedding of `has_ancestor_matching` (src/selector.rs:210-219) -/
def hasAncestorMatching (sel : Selector) (loc : NodeLoc) : Bool :=
  match loc with
  | ⟨_, []⟩ => false
  | ⟨_, p :: rest⟩ => Selector.matches sel ⟨p, rest⟩ || hasAncestorMatching sel ⟨p, rest⟩
termination_by (sizeOf sel, 2, sizeOf loc.ancestors)

end

/-- locations of the proper ancestors of a location, nearest first -/
def ancLocs : List XNode → List NodeLoc
  | [] => []
  | p :: rest => ⟨p, rest⟩ :: ancLocs rest

/-- locations of the proper ancestors of `loc` -/
def NodeLoc.ancestorLocs (loc : NodeLoc) : List NodeLoc := ancLocs loc.ancestors

mutual

/-- locations of the proper descendants of `loc` (all nodes strictly
below it, in document order) -/
def properDescLocs (loc : NodeLoc) : List NodeLoc :=
  match loc with
  | ⟨.element a cs, anc⟩ => descListLocs cs (XNode.element a cs :: anc)
  | ⟨.text _, _⟩ => []
termination_by (sizeOf loc.node, 0)

/-- locations of a list of siblings (sharing the ancestor chain `anc`)
together with all their proper descendants -/
def descListLocs (cs : List XNode) (anc : List XNode) : List NodeLoc :=
  match cs with
  | [] => []
  | c :: rest => ⟨c, anc⟩ :: (properDescLocs ⟨c, anc⟩ ++ descListLocs rest anc)
termination_by (sizeOf cs, 1)

end

/-- rendering of an attribute operator as selector syntax -/
def renderOp : AttrOp → Chars
  | .equals => ['=']
  | .startsWith => ['^', '=']
  | .endsWith => ['$', '=']
  | .contains => ['*', '=']

/-- rendering of an attribute clause as selector syntax, with an
unquoted value -/
def renderClause (c : AttrClause) : Chars :=
  '[' :: (c.attr ++ renderOp c.op ++ c.value ++ [']'])

/-- rendering of an adjacent (whitespace-free) clause sequence -/
def clausesRender (cs : List AttrClause) : Chars := (cs.map renderClause).flatten

/-- clauses whose rendering the grammar accepts: a nonempty identifier
attribute, a value of unquoted-value characters not starting with a
quote, and a nonempty value unless the operator is `=` -/
def wfClause (c : AttrClause) : Prop :=
  c.attr ≠ [] ∧ (∀ ch ∈ c.attr, isIdentChar ch = true) ∧
  (∀ ch ∈ c.value, isValueStop ch = false ∧ ch ≠ '"' ∧ ch ≠ '\'') ∧
  (c.op = .equals ∨ c.value ≠ [])

/-- strings containing no parentheses (so the `:has(`/`:not(` scan of
`parse_inner_selector` passes over them unchanged) -/
def parenFree (s : Chars) : Prop := ∀ ch ∈ s, ch ≠ '(' ∧ ch ≠ ')'

instance (c : AttrClause) : Decidable (wfClause c) := by
  unfold wfClause
  infer_instance

instance (s : Chars) : Decidable (parenFree s) := by
  unfold parenFree
  infer_instance

/-- the string `s` parses (with any sufficient fuel) to the selector `sel` -/
def ParsesTo (s : Chars) (sel : Selector) : Prop :=
  ∀ fuel, fuelOf s ≤ fuel → selParseF fuel s = .ok sel

/-- rendering of a sequence of `:has(...)` suffixes with the given
inner selector strings -/
def renderHasSuffixes (ss : List Chars) : Chars :=
  (ss.map (fun s => hasToken ++ s ++ [')'])).flatten

/-- rendering of a sequence of `:not(...)` suffixes with the given
inner selector strings -/
def renderNotSuffixes (ss : List Chars) : Chars :=
  (ss.map (fun s => notToken ++ s ++ [')'])).flatten

/-- rendering of one `:has(...)`/`:not(...)` suffix (`true` = has) -/
def renderSuffix (b : Bool) (s : Chars) : Chars :=
  (if b then hasToken else notToken) ++ s ++ [')']

/-- rendering of a sequence of suffixes given by kind and inner string -/
def renderSpecs (specs : List (Bool × Chars × Selector)) : Chars :=
  (specs.map (fun x => renderSuffix x.1 x.2.1)).flatten

/-- the effect of the suffix loop on the stored `has`/`not` selectors:
each suffix overwrites the slot of its kind -/
def applySuffixes (hasSel notSel : Option Selector) :
    List (Bool × Selector) → Option Selector × Option Selector
  | [] => (hasSel, notSel)
  | (b, a) :: rest =>
    if b then applySuffixes (some a) notSel rest
    else applySuffixes hasSel (some a) rest

/-- fuel sufficient for the suffix loop over the given specs -/
def suffixesFuel : List (Bool × Chars × Selector) → Nat
  | [] => 1
  | x :: rest => fuelOf x.2.1 + 3 + suffixesFuel rest

/-- the spec's words for the legacy quote stripping: one layer of matching
surrounding quotes is removed (total: on a one-character quote value the
result is empty).  Stated from the specification for comparison with the
code's `legacyStripQuotes`. -/
def specStripQuotes (v : Chars) : Chars :=
  if (v.head? == some '"' && v.getLast? == some '"')
      || (v.head? == some '\'' && v.getLast? == some '\'') then
    (v.drop 1).take (v.length - 2)
  else v

/-- the spec's acceptance condition for the legacy grammar: the trimmed
input contains `=`, contains neither `[` nor `:`, and after splitting on
the first `=` and trimming (and stripping one layer of matching
surrounding quotes from the value) both field and value are non-empty.
Stated from the specification for comparison with `parseLegacy`. -/
def legacySpecAccepts (s : Chars) : Bool :=
  let t := trimChars s
  let field := trimChars (t.takeWhile (fun c => c != '='))
  let value := specStripQuotes (trimChars ((t.dropWhile (fun c => c != '=')).drop 1))
  t.contains '=' && !t.contains '[' && !t.contains ':'
    && !field.isEmpty && !value.isEmpty

theorem drop_cons_pos_lt {input : Chars} {pos : Nat} {c : Char} {t : Chars}
    (h : input.drop pos = c :: t) : pos < input.length := by
  by_contra hle
  rw [List.drop_eq_nil_of_le (by omega)] at h
  cases h

theorem drop_add_eq (input : Chars) (pos k : Nat) :
    input.drop (pos + k) = (input.drop pos).drop k := by
  rw [List.drop_drop]

theorem advance_eq {input : Chars} {pos : Nat} {c : Char} {t : Chars}
    (h : input.drop pos = c :: t) : advance input pos = pos + 1 := by
  simp [advance, drop_cons_pos_lt h]

theorem isEof_false {input : Chars} {pos : Nat} {c : Char} {t : Chars}
    (h : input.drop pos = c :: t) : isEof input pos = false := by
  have hlt := drop_cons_pos_lt h
  simp only [isEof, decide_eq_false_iff_not]
  omega

theorem isEof_true {input : Chars} {pos : Nat} (h : input.drop pos = []) :
    isEof input pos = true := by
  simp only [isEof, decide_eq_true_eq]
  exact List.drop_eq_nil_iff.mp h

theorem takeWhile_stop {p : Char → Bool} {ys : Chars}
    (hy : ∀ c, ys.head? = some c → p c = false) : ys.takeWhile p = [] := by
  cases ys with
  | nil => rfl
  | cons c t => simp [List.takeWhile_cons, hy c rfl]

theorem takeWhile_append_stop {p : Char → Bool} {ys : Chars} (xs : Chars)
    (hy : ∀ c, ys.head? = some c → p c = false) :
    (xs ++ ys).takeWhile p = xs.takeWhile p := by
  rw [List.takeWhile_append, takeWhile_stop hy]
  split
  · next hlen => simp [(List.takeWhile_prefix p).eq_of_length hlen]
  · rfl

theorem takeWhile_seg {p : Char → Bool} {seg rest : Chars}
    (hseg : ∀ c ∈ seg, p c = true)
    (hrest : ∀ c, rest.head? = some c → p c = false) :
    (seg ++ rest).takeWhile p = seg := by
  rw [takeWhile_append_stop seg hrest, List.takeWhile_eq_self_iff.mpr]
  intro x hx
  exact hseg x hx

theorem skipWs_of_drop {input : Chars} {pos : Nat} {suf : Chars}
    (h : input.drop pos = suf) :
    skipWs input pos = pos + (suf.takeWhile Char.isWhitespace).length := by
  simp [skipWs, h]

theorem skipWs_nonws {input : Chars} {pos : Nat} {c : Char} {t : Chars}
    (h : input.drop pos = c :: t) (hc : c.isWhitespace = false) :
    skipWs input pos = pos := by
  simp [skipWs, h, List.takeWhile_cons, hc]

theorem skipWs_nil {input : Chars} {pos : Nat} (h : input.drop pos = []) :
    skipWs input pos = pos := by
  simp [skipWs, h]

theorem dropWhile_head_not {p : Char → Bool} {l t : Chars} {c : Char}
    (h : l.dropWhile p = c :: t) : p c = false := by
  induction l with
  | nil => cases h
  | cons x xs ih =>
    rw [List.dropWhile_cons] at h
    by_cases hx : p x
    · simp [hx] at h
      exact ih h
    · simp [hx] at h
      rw [← h.1]
      simp [hx]

theorem drop_takeWhile_length {p : Char → Bool} :
    ∀ (l : Chars), l.drop (l.takeWhile p).length = l.dropWhile p
  | [] => rfl
  | c :: t => by
    by_cases hc : p c
    · simp [List.takeWhile_cons, List.dropWhile_cons, hc, drop_takeWhile_length t]
    · simp [List.takeWhile_cons, List.dropWhile_cons, hc]

theorem drop_skipWs {input : Chars} {pos : Nat} {suf : Chars}
    (h : input.drop pos = suf) :
    input.drop (skipWs input pos) = suf.dropWhile Char.isWhitespace := by
  rw [skipWs_of_drop h, drop_add_eq, h, drop_takeWhile_length]

theorem skipWs_idem (input : Chars) (pos : Nat) :
    skipWs input (skipWs input pos) = skipWs input pos := by
  have hd := @drop_skipWs input pos _ rfl
  cases hdw : (input.drop pos).dropWhile Char.isWhitespace with
  | nil => exact skipWs_nil (by rw [hd, hdw])
  | cons c t => exact skipWs_nonws (by rw [hd, hdw]) (dropWhile_head_not hdw)

theorem expectChar_ok {input : Chars} {pos : Nat} {c : Char} {t : Chars}
    (h : input.drop pos = c :: t) :
    expectChar input pos c = .ok (pos + 1) := by
  simp [expectChar, peek, h, advance_eq h]

theorem expectStr_ok {input : Chars} {pos : Nat} {s rest : Chars}
    (h : input.drop pos = s ++ rest) :
    expectStr input pos s = .ok (pos + s.length) := by
  have hp : s.isPrefixOf (input.drop pos) = true := by
    rw [h, List.isPrefixOf_iff_prefix]
    exact List.prefix_append s rest
  simp [expectStr, hp]

theorem parseIdentifier_ok {input : Chars} {pos : Nat} {seg rest : Chars}
    (h : input.drop pos = seg ++ rest) (hne : seg ≠ [])
    (hseg : ∀ c ∈ seg, isIdentChar c = true)
    (hrest : ∀ c, rest.head? = some c → isIdentChar c = false) :
    parseIdentifier input pos = .ok (seg, pos + seg.length) := by
  simp [parseIdentifier, h, takeWhile_seg hseg hrest, hne]

theorem isIdentChar_not_ws {c : Char} (h : isIdentChar c = true) :
    c.isWhitespace = false := by
  by_contra hws
  simp only [Bool.not_eq_false] at hws
  simp only [Char.isWhitespace] at hws
  rcases Bool.or_eq_true_iff.mp hws with h' | h'
  · rcases Bool.or_eq_true_iff.mp h' with h'' | h''
    · rcases Bool.or_eq_true_iff.mp h'' with h3 | h3 <;>
        · rw [decide_eq_true_eq] at h3; subst h3; exact absurd h (by decide)
    · rw [decide_eq_true_eq] at h''; subst h''; exact absurd h (by decide)
  · rw [decide_eq_true_eq] at h'; subst h'; exact absurd h (by decide)

theorem not_stop_not_ws {c : Char} (h : isValueStop c = false) :
    c.isWhitespace = false := by
  by_contra hws
  simp only [Bool.not_eq_false] at hws
  simp [isValueStop, hws] at h

theorem stop_not_quote {c : Char} (h : isValueStop c = true) :
    c ≠ '"' ∧ c ≠ '\'' := by
  constructor <;> rintro rfl <;> exact absurd h (by decide)

theorem parseOperator_ok {input : Chars} {pos : Nat} {op : AttrOp} {rest : Chars}
    (h : input.drop pos = renderOp op ++ rest) :
    parseOperator input pos = .ok (op, pos + (renderOp op).length) := by
  cases op with
  | equals =>
    rw [show renderOp .equals = ['='] from rfl] at h ⊢
    rw [List.cons_append, List.nil_append] at h
    simp [parseOperator, peek, h, advance_eq h]
  | startsWith =>
    rw [show renderOp .startsWith = ['^', '='] from rfl] at h ⊢
    rw [List.cons_append, List.cons_append, List.nil_append] at h
    have h2 : input.drop (pos + 1) = '=' :: rest := by rw [drop_add_eq, h]; rfl
    simp [parseOperator, peek, h, advance_eq h, expectChar_ok h2, PRes.bind]
  | endsWith =>
    rw [show renderOp .endsWith = ['$', '='] from rfl] at h ⊢
    rw [List.cons_append, List.cons_append, List.nil_append] at h
    have h2 : input.drop (pos + 1) = '=' :: rest := by rw [drop_add_eq, h]; rfl
    simp [parseOperator, peek, h, advance_eq h, expectChar_ok h2, PRes.bind]
  | contains =>
    rw [show renderOp .contains = ['*', '='] from rfl] at h ⊢
    rw [List.cons_append, List.cons_append, List.nil_append] at h
    have h2 : input.drop (pos + 1) = '=' :: rest := by rw [drop_add_eq, h]; rfl
    simp [parseOperator, peek, h, advance_eq h, expectChar_ok h2, PRes.bind]

theorem parseValue_not_quote {input : Chars} {pos : Nat}
    (h1 : peek input pos ≠ some '"') (h2 : peek input pos ≠ some '\'') :
    parseValue input pos = parseUnquotedValue input pos := by
  unfold parseValue
  split
  · next heq => exact absurd heq h1
  · next heq => exact absurd heq h2
  · rfl

theorem parseValue_unquoted {input : Chars} {pos : Nat} {seg rest : Chars}
    (h : input.drop pos = seg ++ rest)
    (hseg : ∀ c ∈ seg, isValueStop c = false ∧ c ≠ '"' ∧ c ≠ '\'')
    (hrest : ∀ c, rest.head? = some c → isValueStop c = true) :
    parseValue input pos = .ok (seg, pos + seg.length) := by
  have hq : peek input pos ≠ some '"' ∧ peek input pos ≠ some '\'' := by
    rw [peek, h]
    cases seg with
    | nil =>
      simp only [List.nil_append]
      cases hr : rest with
      | nil => simp
      | cons d t =>
        have := stop_not_quote (hrest d (by rw [hr]; rfl))
        simp [this.1, this.2]
    | cons d t =>
      have := hseg d (by simp)
      simp [this.2.1, this.2.2]
  rw [parseValue_not_quote hq.1 hq.2]
  simp only [parseUnquotedValue, h]
  rw [takeWhile_seg (p := fun c => !isValueStop c) ?hs ?hr]
  case hs => intro x hx; simp [(hseg x hx).1]
  case hr => intro x hx; simp [hrest x hx]

theorem skipWs_stop {input : Chars} {pos : Nat} {suf : Chars}
    (h : input.drop pos = suf)
    (hh : ∀ c, suf.head? = some c → c.isWhitespace = false) :
    skipWs input pos = pos := by
  rw [skipWs_of_drop h, takeWhile_stop hh]
  rfl

theorem renderOp_head_not_ident (op : AttrOp) {l : Chars} {c : Char}
    (h : (renderOp op ++ l).head? = some c) : isIdentChar c = false := by
  cases op <;> simp [renderOp] at h <;> subst h <;> decide

theorem renderOp_head_not_ws (op : AttrOp) {l : Chars} {c : Char}
    (h : (renderOp op ++ l).head? = some c) : c.isWhitespace = false := by
  cases op <;> simp [renderOp] at h <;> subst h <;> decide

theorem parseAttrClause_ok {input : Chars} {pos : Nat} {cl : AttrClause} {rest : Chars}
    (h : input.drop pos = renderClause cl ++ rest) (hwf : wfClause cl) :
    parseAttrClause input pos = .ok (cl, pos + (renderClause cl).length) := by
  obtain ⟨attr, op, value⟩ := cl
  obtain ⟨hattr_ne, hattr, hval, hopval⟩ := hwf
  simp only at hattr_ne hattr hval hopval
  have h0 : input.drop pos
      = '[' :: (attr ++ (renderOp op ++ (value ++ (']' :: rest)))) := by
    simpa [renderClause, List.append_assoc] using h
  have e1 : expectChar input pos '[' = .ok (pos + 1) := expectChar_ok h0
  have h1 : input.drop (pos + 1)
      = attr ++ (renderOp op ++ (value ++ (']' :: rest))) := by
    rw [drop_add_eq, h0]
    rfl
  have hws1 : skipWs input (pos + 1) = pos + 1 := by
    apply skipWs_stop h1
    intro d hd
    cases ha : attr with
    | nil => exact absurd ha hattr_ne
    | cons a t =>
      rw [ha] at hd
      simp only [List.cons_append, List.head?_cons, Option.some.injEq] at hd
      subst hd
      exact isIdentChar_not_ws (hattr a (by rw [ha]; simp))
  have e2 : parseIdentifier input (pos + 1) = .ok (attr, pos + 1 + attr.length) :=
    parseIdentifier_ok h1 hattr_ne hattr (fun d hd => renderOp_head_not_ident op hd)
  have h3 : input.drop (pos + 1 + attr.length)
      = renderOp op ++ (value ++ (']' :: rest)) := by
    rw [drop_add_eq, h1, List.drop_left]
  have hws3 : skipWs input (pos + 1 + attr.length) = pos + 1 + attr.length :=
    skipWs_stop h3 (fun d hd => renderOp_head_not_ws op hd)
  have e4 : parseOperator input (pos + 1 + attr.length)
      = .ok (op, pos + 1 + attr.length + (renderOp op).length) := parseOperator_ok h3
  have h5 : input.drop (pos + 1 + attr.length + (renderOp op).length)
      = value ++ (']' :: rest) := by
    rw [drop_add_eq, h3, List.drop_left]
  have hws5 : skipWs input (pos + 1 + attr.length + (renderOp op).length)
      = pos + 1 + attr.length + (renderOp op).length := by
    apply skipWs_stop h5
    intro d hd
    cases hv : value with
    | nil =>
      rw [hv] at hd
      simp only [List.nil_append, List.head?_cons, Option.some.injEq] at hd
      subst hd
      decide
    | cons a t =>
      rw [hv] at hd
      simp only [List.cons_append, List.head?_cons, Option.some.injEq] at hd
      subst hd
      exact not_stop_not_ws (hval a (by rw [hv]; simp)).1
  have e6 : parseValue input (pos + 1 + attr.length + (renderOp op).length)
      = .ok (value, pos + 1 + attr.length + (renderOp op).length + value.length) := by
    apply parseValue_unquoted h5 hval
    intro d hd
    simp only [List.head?_cons, Option.some.injEq] at hd
    subst hd
    decide
  have h7 : input.drop (pos + 1 + attr.length + (renderOp op).length + value.length)
      = ']' :: rest := by
    rw [drop_add_eq, h5, List.drop_left]
  have hws7 : skipWs input (pos + 1 + attr.length + (renderOp op).length + value.length)
      = pos + 1 + attr.length + (renderOp op).length + value.length := by
    apply skipWs_stop h7
    intro d hd
    simp only [List.head?_cons, Option.some.injEq] at hd
    subst hd
    decide
  have e8 : expectChar input
      (pos + 1 + attr.length + (renderOp op).length + value.length) ']'
      = .ok (pos + 1 + attr.length + (renderOp op).length + value.length + 1) :=
    expectChar_ok h7
  have hlen : pos + 1 + attr.length + (renderOp op).length + value.length + 1
      = pos + (renderClause ⟨attr, op, value⟩).length := by
    simp [renderClause]
    omega
  have hemp : value.isEmpty = false ∨ op = AttrOp.equals := by
    rcases hopval with heq | hne
    · exact Or.inr heq
    · left
      cases value with
      | nil => exact absurd rfl hne
      | cons a t => rfl
  unfold parseAttrClause
  rw [e1]
  simp only [PRes.bind]
  rw [hws1, e2]
  simp only [PRes.bind]
  rw [hws3, e4]
  simp only [PRes.bind]
  rw [hws5, e6]
  simp only [PRes.bind]
  rcases hemp with hv | heq
  · cases op <;> simp [hv, hws7, e8, ← hlen]
  · subst heq
    simp [hws7, e8, ← hlen]

theorem dropWhile_idem {p : Char → Bool} (l : Chars) :
    (l.dropWhile p).dropWhile p = l.dropWhile p := by
  cases hd : l.dropWhile p with
  | nil => rfl
  | cons c t => rw [List.dropWhile_cons_of_neg]
                simp [dropWhile_head_not hd]

theorem trimChars_dropWhile (s : Chars) :
    trimChars (s.dropWhile Char.isWhitespace) = trimChars s := by
  simp [trimChars, dropWhile_idem]

theorem selParseF_congr {s1 s2 : Chars} (h : trimChars s1 = trimChars s2)
    (fuel : Nat) : selParseF fuel s1 = selParseF fuel s2 := by
  cases fuel with
  | zero => rfl
  | succ f => simp [selParseF, h]

theorem innerLen_parenfree :
    ∀ (seg : Chars), (∀ c ∈ seg, c ≠ '(' ∧ c ≠ ')') →
      ∀ rest, innerLen (seg ++ ')' :: rest) 1 = seg.length
  | [], _, rest => rfl
  | c :: t, h, rest => by
    have hc := h c (by simp)
    have ih := innerLen_parenfree t (fun x hx => h x (by simp [hx])) rest
    simp only [List.cons_append, innerLen, if_neg hc.1, if_neg hc.2, Nat.zero_add,
      List.length_cons, List.append_eq]
    omega

theorem parenFree_dropWhile {s : Chars} (h : parenFree s) :
    parenFree (s.dropWhile Char.isWhitespace) :=
  fun c hc => h c (List.Sublist.mem hc (List.dropWhile_sublist _))

theorem parseInnerSelF_ok {input : Chars} {pos : Nat} {sI rest : Chars} {A : Selector}
    (h : input.drop pos = sI ++ (')' :: rest))
    (hpf : parenFree sI) (hA : ParsesTo sI A) :
    ∀ fuel, fuelOf sI + 1 ≤ fuel →
      parseInnerSelF fuel input pos = .ok (A, pos + sI.length) := by
  intro fuel hfuel
  cases fuel with
  | zero => omega
  | succ f =>
    have hk : (sI ++ ')' :: rest).takeWhile Char.isWhitespace
        = sI.takeWhile Char.isWhitespace := by
      apply takeWhile_append_stop
      intro c hc
      simp only [List.head?_cons, Option.some.injEq] at hc
      subst hc
      decide
    have hws : skipWs input pos = pos + (sI.takeWhile Char.isWhitespace).length := by
      rw [skipWs_of_drop h, hk]
    have hlen_le : (sI.takeWhile Char.isWhitespace).length ≤ sI.length :=
      (List.takeWhile_prefix _).length_le
    have hdrop : input.drop (skipWs input pos)
        = sI.dropWhile Char.isWhitespace ++ (')' :: rest) := by
      rw [hws, drop_add_eq, h, List.drop_append_of_le_length hlen_le,
        drop_takeWhile_length]
    have hinner : innerLen (input.drop (skipWs input pos)) 1
        = (sI.dropWhile Char.isWhitespace).length := by
      rw [hdrop]
      exact innerLen_parenfree _ (parenFree_dropWhile hpf) rest
    have htake : (input.drop (skipWs input pos)).take
        ((sI.dropWhile Char.isWhitespace).length) = sI.dropWhile Char.isWhitespace := by
      rw [hdrop, List.take_left]
    have hsel : selParseF f (sI.dropWhile Char.isWhitespace) = .ok A := by
      rw [selParseF_congr (trimChars_dropWhile sI) f]
      exact hA f (by omega)
    have hlen2 : (sI.takeWhile Char.isWhitespace).length
        + (sI.dropWhile Char.isWhitespace).length = sI.length := by
      rw [← List.length_append, List.takeWhile_append_dropWhile]
    simp only [parseInnerSelF, hinner, htake, hsel]
    rw [hws]
    have heq : pos + (sI.takeWhile Char.isWhitespace).length
        + (sI.dropWhile Char.isWhitespace).length = pos + sI.length := by omega
    rw [heq]

theorem hasToken_eq : hasToken = [':', 'h', 'a', 's', '('] := rfl

theorem notToken_eq : notToken = [':', 'n', 'o', 't', '('] := rfl

theorem hasToken_prefix_of_drop {input : Chars} {pos : Nat} {l : Chars}
    (h : input.drop pos = hasToken ++ l) :
    hasToken.isPrefixOf (input.drop pos) = true := by
  rw [h, List.isPrefixOf_iff_prefix]
  exact List.prefix_append _ _

theorem notToken_prefix_of_drop {input : Chars} {pos : Nat} {l : Chars}
    (h : input.drop pos = notToken ++ l) :
    notToken.isPrefixOf (input.drop pos) = true := by
  rw [h, List.isPrefixOf_iff_prefix]
  exact List.prefix_append _ _

theorem hasToken_not_prefix_of_notToken {input : Chars} {pos : Nat} {l : Chars}
    (h : input.drop pos = notToken ++ l) :
    hasToken.isPrefixOf (input.drop pos) = false := by
  rw [h, hasToken_eq, notToken_eq]
  rfl

theorem parseHasSelF_ok {input : Chars} {pos : Nat} {sI rest : Chars} {A : Selector}
    (h : input.drop pos = hasToken ++ (sI ++ (')' :: rest)))
    (hpf : parenFree sI) (hA : ParsesTo sI A) :
    ∀ fuel, fuelOf sI + 2 ≤ fuel →
      parseHasSelF fuel input pos = .ok (.has A, pos + sI.length + 6) := by
  intro fuel hfuel
  cases fuel with
  | zero => omega
  | succ f =>
    have hstr : expectStr input pos hasToken = .ok (pos + 5) := expectStr_ok h
    have h5 : input.drop (pos + 5) = sI ++ (')' :: rest) := by
      rw [drop_add_eq, h, hasToken_eq]
      rfl
    have hin := parseInnerSelF_ok h5 hpf hA f (by omega)
    have h6 : input.drop (pos + 5 + sI.length) = ')' :: rest := by
      rw [drop_add_eq, h5, List.drop_left]
    have hrp : expectChar input (pos + 5 + sI.length) ')'
        = .ok (pos + 5 + sI.length + 1) := expectChar_ok h6
    have heq : pos + 5 + sI.length + 1 = pos + sI.length + 6 := by omega
    simp only [parseHasSelF, hstr, hin, hrp, heq]

theorem parseNotSelF_ok {input : Chars} {pos : Nat} {sI rest : Chars} {A : Selector}
    (h : input.drop pos = notToken ++ (sI ++ (')' :: rest)))
    (hpf : parenFree sI) (hA : ParsesTo sI A) :
    ∀ fuel, fuelOf sI + 2 ≤ fuel →
      parseNotSelF fuel input pos = .ok (.not A, pos + sI.length + 6) := by
  intro fuel hfuel
  cases fuel with
  | zero => omega
  | succ f =>
    have hstr : expectStr input pos notToken = .ok (pos + 5) := expectStr_ok h
    have h5 : input.drop (pos + 5) = sI ++ (')' :: rest) := by
      rw [drop_add_eq, h, notToken_eq]
      rfl
    have hin := parseInnerSelF_ok h5 hpf hA f (by omega)
    have h6 : input.drop (pos + 5 + sI.length) = ')' :: rest := by
      rw [drop_add_eq, h5, List.drop_left]
    have hrp : expectChar input (pos + 5 + sI.length) ')'
        = .ok (pos + 5 + sI.length + 1) := expectChar_ok h6
    have heq : pos + 5 + sI.length + 1 = pos + sI.length + 6 := by omega
    simp only [parseNotSelF, hstr, hin, hrp, heq]

theorem parseHasSuffixF_ok {input : Chars} {pos : Nat} {sI rest : Chars} {A : Selector}
    (h : input.drop pos = hasToken ++ (sI ++ (')' :: rest)))
    (hpf : parenFree sI) (hA : ParsesTo sI A) :
    ∀ fuel, fuelOf sI + 2 ≤ fuel →
      parseHasSuffixF fuel input pos = .ok (A, pos + sI.length + 6) := by
  intro fuel hfuel
  cases fuel with
  | zero => omega
  | succ f =>
    have hstr : expectStr input pos hasToken = .ok (pos + 5) := expectStr_ok h
    have h5 : input.drop (pos + 5) = sI ++ (')' :: rest) := by
      rw [drop_add_eq, h, hasToken_eq]
      rfl
    have hin := parseInnerSelF_ok h5 hpf hA f (by omega)
    have h6 : input.drop (pos + 5 + sI.length) = ')' :: rest := by
      rw [drop_add_eq, h5, List.drop_left]
    have hrp : expectChar input (pos + 5 + sI.length) ')'
        = .ok (pos + 5 + sI.length + 1) := expectChar_ok h6
    have heq : pos + 5 + sI.length + 1 = pos + sI.length + 6 := by omega
    simp only [parseHasSuffixF, hstr, hin, hrp, heq]

theorem parseNotSuffixF_ok {input : Chars} {pos : Nat} {sI rest : Chars} {A : Selector}
    (h : input.drop pos = notToken ++ (sI ++ (')' :: rest)))
    (hpf : parenFree sI) (hA : ParsesTo sI A) :
    ∀ fuel, fuelOf sI + 2 ≤ fuel →
      parseNotSuffixF fuel input pos = .ok (A, pos + sI.length + 6) := by
  intro fuel hfuel
  cases fuel with
  | zero => omega
  | succ f =>
    have hstr : expectStr input pos notToken = .ok (pos + 5) := expectStr_ok h
    have h5 : input.drop (pos + 5) = sI ++ (')' :: rest) := by
      rw [drop_add_eq, h, notToken_eq]
      rfl
    have hin := parseInnerSelF_ok h5 hpf hA f (by omega)
    have h6 : input.drop (pos + 5 + sI.length) = ')' :: rest := by
      rw [drop_add_eq, h5, List.drop_left]
    have hrp : expectChar input (pos + 5 + sI.length) ')'
        = .ok (pos + 5 + sI.length + 1) := expectChar_ok h6
    have heq : pos + 5 + sI.length + 1 = pos + sI.length + 6 := by omega
    simp only [parseNotSuffixF, hstr, hin, hrp, heq]

theorem renderSuffix_len (b : Bool) (s : Chars) :
    (renderSuffix b s).length = s.length + 6 := by
  cases b <;> simp [renderSuffix, hasToken_eq, notToken_eq]

theorem suffixLoopF_ok :
    ∀ (specs : List (Bool × Chars × Selector)) (hasSel notSel : Option Selector)
      (pos : Nat) {input : Chars},
      (∀ x ∈ specs, parenFree x.2.1 ∧ ParsesTo x.2.1 x.2.2) →
      input.drop pos = renderSpecs specs →
      ∀ fuel, suffixesFuel specs ≤ fuel →
        suffixLoopF fuel input pos hasSel notSel
          = .ok ((applySuffixes hasSel notSel (specs.map (fun x => (x.1, x.2.2)))).1,
                 (applySuffixes hasSel notSel (specs.map (fun x => (x.1, x.2.2)))).2,
                 pos + (renderSpecs specs).length)
  | [], hasSel, notSel, pos, input, _, h, fuel, hfuel => by
    cases fuel with
    | zero => simp [suffixesFuel] at hfuel
    | succ f =>
      have hnil : input.drop pos = [] := by simpa [renderSpecs] using h
      have hws : skipWs input pos = pos := skipWs_nil hnil
      simp [suffixLoopF, hws, peek, hnil, renderSpecs, applySuffixes]
  | (b, s, a) :: rest', hasSel, notSel, pos, input, hx, h, fuel, hfuel => by
    cases fuel with
    | zero => simp [suffixesFuel] at hfuel
    | succ f =>
      have hpf : parenFree s := (hx (b, s, a) (by simp)).1
      have hPt : ParsesTo s a := (hx (b, s, a) (by simp)).2
      have hfb : fuelOf s + 3 + suffixesFuel rest' ≤ f + 1 := by
        simpa [suffixesFuel] using hfuel
      have hfr : suffixesFuel rest' ≤ f := by omega
      cases b with
      | true =>
        have hr : input.drop pos = hasToken ++ (s ++ (')' :: renderSpecs rest')) := by
          rw [h]
          simp [renderSpecs, renderSuffix, List.append_assoc]
        have hcolon : peek input pos = some ':' := by
          rw [peek, hr, hasToken_eq]
          rfl
        have hws : skipWs input pos = pos := by
          refine skipWs_stop rfl ?_
          intro c hc
          rw [← peek, hcolon] at hc
          cases hc
          decide
        have hpref : hasToken.isPrefixOf (input.drop pos) = true :=
          hasToken_prefix_of_drop hr
        have hsuf : parseHasSuffixF f input pos = .ok (a, pos + (s.length + 6)) :=
          parseHasSuffixF_ok hr hpf hPt f (by omega)
        have hnext : input.drop (pos + (s.length + 6)) = renderSpecs rest' := by
          rw [drop_add_eq, hr, hasToken_eq]
          have : (s.length + 6) = 5 + (s.length + 1) := by omega
          rw [this]
          rw [show ([':', 'h', 'a', 's', '('] ++ (s ++ ')' :: renderSpecs rest'))
            = [':', 'h', 'a', 's', '('] ++ ((s ++ [')']) ++ renderSpecs rest') from by
              simp [List.append_assoc]]
          rw [List.drop_append_eq_append_drop]
          simp
        have h2 := suffixLoopF_ok rest' (some a) notSel (pos + (s.length + 6))
          (fun x hxm => hx x (by simp [hxm])) hnext f hfr
        have hlen : pos + (s.length + 6) + (renderSpecs rest').length
            = pos + (renderSpecs ((true, s, a) :: rest')).length := by
          simp [renderSpecs, renderSuffix, hasToken_eq]
          omega
        simp only [suffixLoopF, hws, hcolon, hpref, hsuf]
        rw [h2, hlen]
        simp [applySuffixes]
      | false =>
        have hr : input.drop pos = notToken ++ (s ++ (')' :: renderSpecs rest')) := by
          rw [h]
          simp [renderSpecs, renderSuffix, List.append_assoc]
        have hcolon : peek input pos = some ':' := by
          rw [peek, hr, notToken_eq]
          rfl
        have hws : skipWs input pos = pos := by
          refine skipWs_stop rfl ?_
          intro c hc
          rw [← peek, hcolon] at hc
          cases hc
          decide
        have hnpref : hasToken.isPrefixOf (input.drop pos) = false :=
          hasToken_not_prefix_of_notToken hr
        have hpref : notToken.isPrefixOf (input.drop pos) = true :=
          notToken_prefix_of_drop hr
        have hsuf : parseNotSuffixF f input pos = .ok (a, pos + (s.length + 6)) :=
          parseNotSuffixF_ok hr hpf hPt f (by omega)
        have hnext : input.drop (pos + (s.length + 6)) = renderSpecs rest' := by
          rw [drop_add_eq, hr, notToken_eq]
          have : (s.length + 6) = 5 + (s.length + 1) := by omega
          rw [this]
          rw [show ([':', 'n', 'o', 't', '('] ++ (s ++ ')' :: renderSpecs rest'))
            = [':', 'n', 'o', 't', '('] ++ ((s ++ [')']) ++ renderSpecs rest') from by
              simp [List.append_assoc]]
          rw [List.drop_append_eq_append_drop]
          simp
        have h2 := suffixLoopF_ok rest' hasSel (some a) (pos + (s.length + 6))
          (fun x hxm => hx x (by simp [hxm])) hnext f hfr
        have hlen : pos + (s.length + 6) + (renderSpecs rest').length
            = pos + (renderSpecs ((false, s, a) :: rest')).length := by
          simp [renderSpecs, renderSuffix, notToken_eq]
          omega
        simp only [suffixLoopF, hws, hcolon, hnpref, hpref, hsuf]
        rw [h2, hlen]
        simp [applySuffixes]

theorem attrLoopF_clauses :
    ∀ (cs : List AttrClause) (acc : List AttrClause) (pos : Nat)
      {input rest : Chars},
      (∀ c ∈ cs, wfClause c) →
      input.drop pos = clausesRender cs ++ rest →
      rest.head? ≠ some '[' →
      (acc = [] → cs ≠ []) →
      ∀ fuel, cs.length + 1 ≤ fuel →
        attrLoopF fuel input pos acc = .ok (acc ++ cs, pos + (clausesRender cs).length)
  | [], acc, pos, input, rest, _, h, hstop, hne, fuel, hfuel => by
    cases fuel with
    | zero => omega
    | succ f =>
      have hacc : acc ≠ [] := fun ha => (hne ha) rfl
      have hanemp : acc.isEmpty = false := by
        cases acc with
        | nil => exact absurd rfl hacc
        | cons _ _ => rfl
      have h' : input.drop pos = rest := by simpa [clausesRender] using h
      have hws := skipWs_of_drop h'
      by_cases hpk : peek input (skipWs input pos) = some '['
      · have hlt : pos < skipWs input pos := by
          rcases Nat.lt_or_ge pos (skipWs input pos) with hl | hg
          · exact hl
          · exfalso
            have : skipWs input pos = pos := by omega
            rw [this] at hpk
            rw [peek, h'] at hpk
            exact hstop hpk
        simp [attrLoopF, hpk, hlt, hanemp, clausesRender]
      · simp [attrLoopF, hpk, clausesRender]
  | c :: cs', acc, pos, input, rest, hwf, h, hstop, _, fuel, hfuel => by
    cases fuel with
    | zero => omega
    | succ f =>
      have h' : input.drop pos = renderClause c ++ (clausesRender cs' ++ rest) := by
        rw [h]
        simp [clausesRender, List.append_assoc]
      have hbr : input.drop pos = '[' :: ((c.attr ++ renderOp c.op ++ c.value ++ [']'])
          ++ (clausesRender cs' ++ rest)) := by
        rw [h']
        simp [renderClause]
      have hws : skipWs input pos = pos :=
        skipWs_nonws hbr (by decide)
      have hpk : peek input pos = some '[' := by
        rw [peek, hbr]
        rfl
      have hcl : parseAttrClause input pos
          = .ok (c, pos + (renderClause c).length) :=
        parseAttrClause_ok h' (hwf c (by simp))
      have hnext : input.drop (pos + (renderClause c).length)
          = clausesRender cs' ++ rest := by
        rw [drop_add_eq, h', List.drop_left]
      have hrec := attrLoopF_clauses cs' (acc ++ [c]) (pos + (renderClause c).length)
        (fun x hx => hwf x (by simp [hx])) hnext hstop (by simp) f (by simp at hfuel ⊢; omega)
      have hlen : pos + (renderClause c).length + (clausesRender cs').length
          = pos + (clausesRender (c :: cs')).length := by
        simp [clausesRender]
        omega
      simp [attrLoopF, hws, hpk, hcl, hrec, ← hlen]

theorem clausesRender_head {cs : List AttrClause} {l : Chars} {c : Char}
    (hne : cs ≠ []) (h : (clausesRender cs ++ l).head? = some c) : c = '[' := by
  cases cs with
  | nil => exact absurd rfl hne
  | cons cl cs' =>
    simp [clausesRender, renderClause] at h
    exact h.symm

theorem complexAfterF_and {input : Chars} {pos : Nat} {cs : List AttrClause}
    {rest : Chars}
    (hwf : ∀ c ∈ cs, wfClause c) (hne : cs ≠ [])
    (h : input.drop pos = clausesRender cs ++ rest)
    (hstop : rest.head? ≠ some '[')
    (hnc : peek input (skipWs input (pos + (clausesRender cs).length)) ≠ some ':') :
    ∀ fuel, cs.length + 3 ≤ fuel →
      complexAfterF fuel input pos
        = .ok (.and cs, skipWs input (pos + (clausesRender cs).length)) := by
  intro fuel hfuel
  cases fuel with
  | zero => omega
  | succ f =>
    cases f with
    | zero => omega
    | succ g =>
      have hloop := attrLoopF_clauses cs [] pos hwf h hstop (fun _ => hne) g (by omega)
      have hcsne : cs.isEmpty = false := by
        cases cs with
        | nil => exact absurd rfl hne
        | cons _ _ => rfl
      simp only [complexAfterF, parseAttrClausesF, hloop, List.nil_append]
      have hb : (peek input (skipWs input (pos + (clausesRender cs).length))
          == some ':') = false := beq_eq_false_iff_ne.mpr hnc
      rw [hb]
      simp [hcsne]

theorem applySuffixes_some :
    ∀ (l : List (Bool × Selector)) (h n : Option Selector),
      (l ≠ [] ∨ (h.isSome || n.isSome) = true) →
      ((applySuffixes h n l).1.isSome || (applySuffixes h n l).2.isSome) = true
  | [], h, n, hyp => by
    rcases hyp with hne | hs
    · exact absurd rfl hne
    · simpa [applySuffixes] using hs
  | (b, a) :: t, h, n, _ => by
    cases b with
    | true =>
      have := applySuffixes_some t (some a) n (Or.inr (by simp))
      simpa [applySuffixes] using this
    | false =>
      have := applySuffixes_some t h (some a) (Or.inr (by simp))
      simpa [applySuffixes] using this

theorem renderSpecs_head {specs : List (Bool × Chars × Selector)} {l : Chars} {c : Char}
    (hne : specs ≠ []) (h : (renderSpecs specs ++ l).head? = some c) : c = ':' := by
  cases specs with
  | nil => exact absurd rfl hne
  | cons x t =>
    obtain ⟨b, s, a⟩ := x
    cases b <;>
      · simp [renderSpecs, renderSuffix, hasToken_eq, notToken_eq] at h
        exact h.symm

theorem complexAfterF_suffixes {input : Chars} {pos : Nat} {cs : List AttrClause}
    {wsStr : Chars} {specs : List (Bool × Chars × Selector)}
    (hwf : ∀ c ∈ cs, wfClause c) (hne : cs ≠ [])
    (hws : ∀ c ∈ wsStr, c.isWhitespace = true)
    (hspecs : ∀ x ∈ specs, parenFree x.2.1 ∧ ParsesTo x.2.1 x.2.2)
    (hsne : specs ≠ [])
    (h : input.drop pos = clausesRender cs ++ (wsStr ++ renderSpecs specs)) :
    ∀ fuel, cs.length + suffixesFuel specs + 4 ≤ fuel →
      complexAfterF fuel input pos
        = .ok (.complex cs
            (applySuffixes none none (specs.map (fun x => (x.1, x.2.2)))).1
            (applySuffixes none none (specs.map (fun x => (x.1, x.2.2)))).2,
          pos + (clausesRender cs).length + wsStr.length + (renderSpecs specs).length) := by
  intro fuel hfuel
  cases fuel with
  | zero => omega
  | succ f =>
    cases f with
    | zero => omega
    | succ g =>
      have hrs_head : ∀ c, (renderSpecs specs).head? = some c → c = ':' := by
        intro c hc
        exact renderSpecs_head hsne (l := []) (by simpa using hc)
      have hstop : (wsStr ++ renderSpecs specs).head? ≠ some '[' := by
        cases wsStr with
        | nil =>
          simp only [List.nil_append]
          intro hc
          exact absurd (hrs_head '[' hc) (by decide)
        | cons w t =>
          simp only [List.cons_append, List.head?_cons, Option.some.injEq]
          intro hw
          have h1 := hws w (by simp)
          have hw' : w = '[' := by injection hw
          rw [hw'] at h1
          exact absurd h1 (by decide)
      have hloop := attrLoopF_clauses cs [] pos hwf h hstop (fun _ => hne) g (by omega)
      have hdrop2 : input.drop (pos + (clausesRender cs).length)
          = wsStr ++ renderSpecs specs := by
        rw [drop_add_eq, h, List.drop_left]
      have hskip : skipWs input (pos + (clausesRender cs).length)
          = pos + (clausesRender cs).length + wsStr.length := by
        rw [skipWs_of_drop hdrop2, takeWhile_seg hws]
        intro c hc
        have := hrs_head c hc
        subst this
        decide
      have hdrop3 : input.drop (pos + (clausesRender cs).length + wsStr.length)
          = renderSpecs specs := by
        rw [drop_add_eq, hdrop2, List.drop_left]
      have hcolon : peek input (pos + (clausesRender cs).length + wsStr.length)
          = some ':' := by
        rw [peek, hdrop3]
        cases hsp : renderSpecs specs with
        | nil =>
          exfalso
          cases specs with
          | nil => exact absurd rfl hsne
          | cons x t =>
            obtain ⟨b, s, a⟩ := x
            cases b <;> simp [renderSpecs, renderSuffix, hasToken_eq, notToken_eq] at hsp
        | cons d t =>
          have : d = ':' := hrs_head d (by rw [hsp]; rfl)
          rw [this]
          rfl
      have hsloop := suffixLoopF_ok specs none none
        (pos + (clausesRender cs).length + wsStr.length) hspecs hdrop3 (g + 1) (by omega)
      have hcsne : cs.isEmpty = false := by
        cases cs with
        | nil => exact absurd rfl hne
        | cons _ _ => rfl
      have hsome := applySuffixes_some (specs.map (fun x => (x.1, x.2.2))) none none
        (Or.inl (by cases specs with
          | nil => exact absurd rfl hsne
          | cons _ _ => simp))
      simp only [complexAfterF, parseAttrClausesF, hloop, List.nil_append, hskip, hcolon]
      rw [show ((some ':' : Option Char) == some ':') = true from rfl]
      simp only [if_true, hsloop]
      simp only [hcsne, Bool.false_and, Bool.false_eq_true, if_false, hsome, if_true]

theorem parseComplexSelF_not_colon {input : Chars} {pos : Nat}
    (hp : peek input (skipWs input pos) ≠ some ':') :
    ∀ f, parseComplexSelF (f + 1) input pos = complexAfterF f input (skipWs input pos) := by
  intro f
  have hb : (peek input (skipWs input pos) == some ':') = false :=
    beq_eq_false_iff_ne.mpr hp
  simp [parseComplexSelF, hb]

theorem parseComplexSelF_bare_has {input : Chars} {pos : Nat} {l : Chars}
    (hdrop : input.drop (skipWs input pos) = hasToken ++ l) :
    ∀ f, parseComplexSelF (f + 1) input pos = parseHasSelF f input (skipWs input pos) := by
  intro f
  have hcolon : peek input (skipWs input pos) = some ':' := by
    rw [peek, hdrop, hasToken_eq]
    rfl
  have hpref := hasToken_prefix_of_drop hdrop
  simp [parseComplexSelF, hcolon, hpref]

theorem parseComplexSelF_bare_not {input : Chars} {pos : Nat} {l : Chars}
    (hdrop : input.drop (skipWs input pos) = notToken ++ l) :
    ∀ f, parseComplexSelF (f + 1) input pos = parseNotSelF f input (skipWs input pos) := by
  intro f
  have hcolon : peek input (skipWs input pos) = some ':' := by
    rw [peek, hdrop, notToken_eq]
    rfl
  have hnpref := hasToken_not_prefix_of_notToken hdrop
  have hpref := notToken_prefix_of_drop hdrop
  simp [parseComplexSelF, hcolon, hnpref, hpref]

theorem parseChildCombF_single {input : Chars} {pos p1 : Nat} {sel : Selector} {n : Nat}
    (hcx : ∀ f, n ≤ f → parseComplexSelF f input pos = .ok (sel, p1))
    (hstop : peek input (skipWs input p1) ≠ some '>') :
    ∀ fuel, n + 2 ≤ fuel → parseChildCombF fuel input pos = .ok (sel, skipWs input p1) := by
  intro fuel hf
  cases fuel with
  | zero => omega
  | succ f =>
    cases f with
    | zero => omega
    | succ g =>
      have hb : (peek input (skipWs input p1) == some '>') = false :=
        beq_eq_false_iff_ne.mpr hstop
      simp [parseChildCombF, hcx (g + 1) (by omega), childLoopF, hb]

theorem parseDescChainF_to_eof {input : Chars} {pos p1 : Nat} {sel : Selector} {n : Nat}
    (hchild : ∀ f, n ≤ f → parseChildCombF f input pos = .ok (sel, p1))
    (hend : input.drop (skipWs input p1) = []) :
    ∀ fuel, n + 2 ≤ fuel → parseDescChainF fuel input pos = .ok (sel, skipWs input p1) := by
  intro fuel hf
  cases fuel with
  | zero => omega
  | succ f =>
    cases f with
    | zero => omega
    | succ g =>
      simp [parseDescChainF, hchild (g + 1) (by omega), descLoopF, isEof_true hend]

theorem selParseF_of_chain {s : Chars} {sel : Selector} {p1 : Nat} {c0 : Char} {n : Nat}
    (htrim : trimChars s = s)
    (hc0 : peek s (skipWs s 0) = some c0) (hc0ne : c0 ≠ ',')
    (hchain : ∀ f, n ≤ f → parseDescChainF f s (skipWs s 0) = .ok (sel, p1))
    (hend : s.drop (skipWs s p1) = []) :
    ∀ fuel, n + 4 ≤ fuel → selParseF fuel s = .ok sel := by
  intro fuel hf
  obtain ⟨t0, hd0⟩ : ∃ t0, s.drop (skipWs s 0) = c0 :: t0 := by
    rw [peek] at hc0
    cases hd : s.drop (skipWs s 0) with
    | nil =>
      rw [hd] at hc0
      cases hc0
    | cons d t =>
      rw [hd] at hc0
      simp at hc0
      exact ⟨t, by rw [hc0]⟩
  cases fuel with
  | zero => omega
  | succ f =>
    cases f with
    | zero => omega
    | succ g =>
      cases g with
      | zero => omega
      | succ k =>
        cases k with
        | zero => omega
        | succ m =>
          have hne : isEof s (skipWs s 0) = false := isEof_false hd0
          have hnc : (peek s (skipWs s 0) == some ',') = false := by
            rw [hc0]
            simp [hc0ne]
          have hidem0 : skipWs s (skipWs s 0) = skipWs s 0 := skipWs_idem s 0
          have hidem1 : skipWs s (skipWs s p1) = skipWs s p1 := skipWs_idem s p1
          have hpk2 : peek s (skipWs s p1) = none := by
            rw [peek, hend]
            rfl
          have hnc2 : (peek s (skipWs s p1) == some ',') = false := by
            rw [hpk2]
            rfl
          have heof2 : isEof s (skipWs s p1) = true := isEof_true hend
          have hchainr := hchain m (by omega)
          have heof2' : isEof s (skipWs s (skipWs s p1)) = true := by
            rw [hidem1]
            exact heof2
          simp only [selParseF, htrim, parserParseF, parseOrExprF, orLoopF,
            hidem0, hne, hnc, hchainr, hidem1, hnc2, heof2, heof2',
            Bool.false_eq_true, if_false, if_true, List.nil_append]

theorem descLoopF_eof {input : Chars} {pos : Nat} {left : Selector}
    (hend : input.drop (skipWs input pos) = []) :
    ∀ fuel, 1 ≤ fuel → descLoopF fuel input pos left = .ok (left, skipWs input pos) := by
  intro fuel hf
  cases fuel with
  | zero => omega
  | succ f => simp [descLoopF, isEof_true hend]

theorem descLoopF_step {input : Chars} {pos p2 : Nat} {left right : Selector}
    {R : PRes (Selector × Nat)} {n m : Nat} {c0 : Char}
    (hc0 : peek input (skipWs input pos) = some c0)
    (hc0' : c0 = '[' ∨ c0 = ':')
    (hchild : ∀ f, n ≤ f → parseChildCombF f input (skipWs input pos) = .ok (right, p2))
    (hrest : ∀ f, m ≤ f → descLoopF f input p2 (.descendant left right) = R) :
    ∀ fuel, n + m + 1 ≤ fuel → descLoopF fuel input pos left = R := by
  intro fuel hf
  cases fuel with
  | zero => omega
  | succ f =>
    obtain ⟨t0, hd0⟩ : ∃ t0, input.drop (skipWs input pos) = c0 :: t0 := by
      rw [peek] at hc0
      cases hd : input.drop (skipWs input pos) with
      | nil =>
        rw [hd] at hc0
        cases hc0
      | cons d t =>
        rw [hd] at hc0
        simp at hc0
        exact ⟨t, by rw [hc0]⟩
    have hne : isEof input (skipWs input pos) = false := isEof_false hd0
    have hb1 : (peek input (skipWs input pos) == some ',') = false := by
      rw [hc0]
      rcases hc0' with rfl | rfl <;> rfl
    have hb2 : (peek input (skipWs input pos) == some ')') = false := by
      rw [hc0]
      rcases hc0' with rfl | rfl <;> rfl
    have hch := hchild f (by omega)
    have hrs := hrest f (by omega)
    rcases hc0' with rfl | rfl <;>
      simp [descLoopF, hne, hb1, hb2, hc0, hch, hrs]

theorem parseDescChainF_start {input : Chars} {pos p1 : Nat} {sel : Selector}
    {R : PRes (Selector × Nat)} {n m : Nat}
    (hchild : ∀ f, n ≤ f → parseChildCombF f input pos = .ok (sel, p1))
    (hloop : ∀ f, m ≤ f → descLoopF f input p1 sel = R) :
    ∀ fuel, n + m + 1 ≤ fuel → parseDescChainF fuel input pos = R := by
  intro fuel hf
  cases fuel with
  | zero => omega
  | succ f =>
    simp [parseDescChainF, hchild f (by omega), hloop f (by omega)]

theorem childLoopF_stop {input : Chars} {pos : Nat} {left : Selector}
    (hstop : peek input (skipWs input pos) ≠ some '>') :
    ∀ fuel, 1 ≤ fuel → childLoopF fuel input pos left = .ok (left, skipWs input pos) := by
  intro fuel hf
  cases fuel with
  | zero => omega
  | succ f =>
    have hb : (peek input (skipWs input pos) == some '>') = false :=
      beq_eq_false_iff_ne.mpr hstop
    simp [childLoopF, hb]

theorem childLoopF_step {input : Chars} {pos p3 : Nat} {left right : Selector}
    {R : PRes (Selector × Nat)} {n m : Nat}
    (hgt : peek input (skipWs input pos) = some '>')
    (hcx : ∀ f, n ≤ f → parseComplexSelF f input
      (skipWs input (advance input (skipWs input pos))) = .ok (right, p3))
    (hrest : ∀ f, m ≤ f → childLoopF f input p3 (.child left right) = R) :
    ∀ fuel, n + m + 1 ≤ fuel → childLoopF fuel input pos left = R := by
  intro fuel hf
  cases fuel with
  | zero => omega
  | succ f =>
    simp [childLoopF, hgt, hcx f (by omega), hrest f (by omega)]

theorem parseChildCombF_start {input : Chars} {pos p1 : Nat} {sel : Selector}
    {R : PRes (Selector × Nat)} {n m : Nat}
    (hcx : ∀ f, n ≤ f → parseComplexSelF f input pos = .ok (sel, p1))
    (hloop : ∀ f, m ≤ f → childLoopF f input p1 sel = R) :
    ∀ fuel, n + m + 1 ≤ fuel → parseChildCombF fuel input pos = R := by
  intro fuel hf
  cases fuel with
  | zero => omega
  | succ f =>
    simp [parseChildCombF, hcx f (by omega), hloop f (by omega)]

theorem parseComplexSelF_and {input : Chars} {pos : Nat} {cs : List AttrClause}
    {rest : Chars}
    (hwf : ∀ c ∈ cs, wfClause c) (hne : cs ≠ [])
    (hhead : input.drop (skipWs input pos) = clausesRender cs ++ rest)
    (hstop : rest.head? ≠ some '[')
    (hnc : peek input (skipWs input (skipWs input pos + (clausesRender cs).length))
      ≠ some ':') :
    ∀ fuel, cs.length + 4 ≤ fuel →
      parseComplexSelF fuel input pos
        = .ok (.and cs, skipWs input (skipWs input pos + (clausesRender cs).length)) := by
  intro fuel hf
  cases fuel with
  | zero => omega
  | succ f =>
    have hbr : peek input (skipWs input pos) = some '[' := by
      cases hcs : cs with
      | nil => exact absurd hcs hne
      | cons c t =>
        rw [peek, hhead, hcs]
        simp [clausesRender, renderClause]
    have hnotcolon : peek input (skipWs input pos) ≠ some ':' := by
      rw [hbr]
      intro hc
      cases hc
    rw [parseComplexSelF_not_colon hnotcolon f]
    exact complexAfterF_and hwf hne (by rwa [drop_skipWs rfl, ← drop_skipWs rfl] at hhead)
      hstop hnc f (by omega)

theorem dropWhile_eq_self_of_head {p : Char → Bool} {s : Chars}
    (h : ∀ c, s.head? = some c → p c = false) : s.dropWhile p = s := by
  cases s with
  | nil => rfl
  | cons c t =>
    rw [List.dropWhile_cons_of_neg]
    simp [h c rfl]

theorem trimChars_eq_self {s : Chars}
    (h1 : ∀ c, s.head? = some c → c.isWhitespace = false)
    (h2 : ∀ c, s.getLast? = some c → c.isWhitespace = false) :
    trimChars s = s := by
  unfold trimChars
  rw [dropWhile_eq_self_of_head h1]
  rw [dropWhile_eq_self_of_head (fun c hc => h2 c (by rwa [List.head?_reverse] at hc))]
  exact List.reverse_reverse s

theorem renderClause_getLast (c : AttrClause) : (renderClause c).getLast? = some ']' := by
  rw [← List.head?_reverse]
  simp [renderClause]

theorem clausesRender_cons (c : AttrClause) (t : List AttrClause) :
    clausesRender (c :: t) = renderClause c ++ clausesRender t := by
  simp [clausesRender]

theorem clausesRender_ne_nil {cs : List AttrClause} (hne : cs ≠ []) :
    clausesRender cs ≠ [] := by
  cases cs with
  | nil => exact absurd rfl hne
  | cons c t => simp [clausesRender_cons, renderClause]

theorem clausesRender_getLast : ∀ {cs : List AttrClause} {d : Char}, cs ≠ [] →
    (clausesRender cs).getLast? = some d → d = ']'
  | [], _, hne, _ => absurd rfl hne
  | c :: t, d, _, h => by
    cases ht : t with
    | nil =>
      subst ht
      rw [show clausesRender [c] = renderClause c from by simp [clausesRender],
        renderClause_getLast c] at h
      cases h
      rfl
    | cons c2 t2 =>
      rw [clausesRender_cons, List.getLast?_append] at h
      have hne2 : clausesRender t ≠ [] := clausesRender_ne_nil (by rw [ht]; simp)
      have hg : (clausesRender t).getLast? = some d := by
        cases hg0 : (clausesRender t).getLast? with
        | none => exact absurd (List.getLast?_eq_none_iff.mp hg0) hne2
        | some x =>
          rw [hg0] at h
          simp [Option.or] at h
          rw [h]
      exact clausesRender_getLast (by rw [ht]; simp) hg

theorem clausesRender_length_ge : ∀ (cs : List AttrClause),
    cs.length ≤ (clausesRender cs).length
  | [] => by simp [clausesRender]
  | c :: t => by
    have ih := clausesRender_length_ge t
    have hc : 1 ≤ (renderClause c).length := by simp [renderClause]
    rw [clausesRender_cons, List.length_append, List.length_cons]
    omega

theorem ParsesTo_clauses {cs : List AttrClause}
    (hwf : ∀ c ∈ cs, wfClause c) (hne : cs ≠ []) :
    ParsesTo (clausesRender cs) (.and cs) := by
  intro fuel hfuel
  have hhead : ∀ d, (clausesRender cs).head? = some d → d = '[' := by
    intro d hd
    exact clausesRender_head hne (l := []) (by simpa using hd)
  have htrim : trimChars (clausesRender cs) = clausesRender cs := by
    apply trimChars_eq_self
    · intro c hc
      rw [hhead c hc]
      decide
    · intro c hc
      rw [clausesRender_getLast hne hc]
      decide
  have hskip0 : skipWs (clausesRender cs) 0 = 0 := by
    apply @skipWs_stop _ _ (clausesRender cs) (by simp)
    intro c hc
    rw [hhead c hc]
    decide
  have hdl : (clausesRender cs).drop (clausesRender cs).length = [] :=
    List.drop_length _
  have hskipL : skipWs (clausesRender cs) (clausesRender cs).length
      = (clausesRender cs).length := skipWs_nil hdl
  have hd0 : (clausesRender cs).drop (skipWs (clausesRender cs) 0)
      = clausesRender cs ++ [] := by
    rw [hskip0]
    simp
  have hnc : peek (clausesRender cs)
      (skipWs (clausesRender cs)
        (skipWs (clausesRender cs) 0 + (clausesRender cs).length))
      ≠ some ':' := by
    rw [hskip0, Nat.zero_add, hskipL, peek, hdl]
    simp
  have hcx : ∀ f, cs.length + 4 ≤ f →
      parseComplexSelF f (clausesRender cs) 0
        = .ok (.and cs, (clausesRender cs).length) := by
    intro f hf
    have h1 := parseComplexSelF_and hwf hne hd0 (by simp) hnc f hf
    rw [hskip0, Nat.zero_add, hskipL] at h1
    exact h1
  have hchild : ∀ f, cs.length + 7 ≤ f →
      parseChildCombF f (clausesRender cs) 0
        = .ok (.and cs, (clausesRender cs).length) := by
    intro f hf
    have h1 := parseChildCombF_single (n := cs.length + 4) hcx
      (by rw [hskipL, peek, hdl]; simp) f (by omega)
    rwa [hskipL] at h1
  have hchain : ∀ f, cs.length + 10 ≤ f →
      parseDescChainF f (clausesRender cs) (skipWs (clausesRender cs) 0)
        = .ok (.and cs, (clausesRender cs).length) := by
    intro f hf
    rw [hskip0]
    have h1 := parseDescChainF_to_eof (n := cs.length + 7) hchild
      (by rw [hskipL]; exact hdl) f (by omega)
    rwa [hskipL] at h1
  have hc0 : peek (clausesRender cs) (skipWs (clausesRender cs) 0) = some '[' := by
    rw [hskip0, peek]
    cases hcs : cs with
    | nil => exact absurd hcs hne
    | cons c t => simp [clausesRender_cons, renderClause]
  have hlen := clausesRender_length_ge cs
  apply selParseF_of_chain htrim hc0 (by decide) hchain (by rw [hskipL]; exact hdl) fuel
  simp [fuelOf] at hfuel
  omega

theorem getLast?_cons_or {α : Type} (x : α) (l : List α) :
    (x :: l).getLast? = (l.getLast?).or (some x) := by
  cases l with
  | nil => rfl
  | cons y t =>
    rw [List.getLast?_cons_cons]
    cases hg : (y :: t).getLast? with
    | none => exact absurd (List.getLast?_eq_none_iff.mp hg) (by simp)
    | some z => rfl

theorem option_map_or {α β : Type} (f : α → β) (x y : Option α) :
    (x.or y).map f = (x.map f).or (y.map f) := by
  cases x <;> rfl

theorem option_or_assoc {α : Type} (x y z : Option α) :
    (x.or y).or z = x.or (y.or z) := by
  cases x <;> rfl

theorem applySuffixes_eq :
    ∀ (l : List (Bool × Selector)) (h n : Option Selector),
      applySuffixes h n l
        = (((l.filter (fun x => x.1)).getLast?.map Prod.snd).or h,
           ((l.filter (fun x => !x.1)).getLast?.map Prod.snd).or n)
  | [], h, n => by simp [applySuffixes]
  | (b, a) :: t, h, n => by
    cases b with
    | true =>
      rw [show applySuffixes h n ((true, a) :: t) = applySuffixes (some a) n t from rfl]
      rw [applySuffixes_eq t (some a) n]
      have h1 : ((true, a) :: t).filter (fun x => x.1)
          = (true, a) :: t.filter (fun x => x.1) := by simp
      have h2 : ((true, a) :: t).filter (fun x => !x.1)
          = t.filter (fun x => !x.1) := by simp
      rw [h1, h2, getLast?_cons_or, option_map_or, option_or_assoc]
      rfl
    | false =>
      rw [show applySuffixes h n ((false, a) :: t) = applySuffixes h (some a) t from rfl]
      rw [applySuffixes_eq t h (some a)]
      have h1 : ((false, a) :: t).filter (fun x => x.1)
          = t.filter (fun x => x.1) := by simp
      have h2 : ((false, a) :: t).filter (fun x => !x.1)
          = (false, a) :: t.filter (fun x => !x.1) := by simp
      rw [h1, h2, getLast?_cons_or, option_map_or, option_or_assoc]
      rfl

theorem renderSuffix_getLast (b : Bool) (s : Chars) :
    (renderSuffix b s).getLast? = some ')' := by
  cases b <;> simp [renderSuffix]

theorem renderSpecs_cons (x : Bool × Chars × Selector)
    (t : List (Bool × Chars × Selector)) :
    renderSpecs (x :: t) = renderSuffix x.1 x.2.1 ++ renderSpecs t := by
  simp [renderSpecs]

theorem renderSpecs_ne_nil {specs : List (Bool × Chars × Selector)}
    (hne : specs ≠ []) : renderSpecs specs ≠ [] := by
  cases specs with
  | nil => exact absurd rfl hne
  | cons x t =>
    obtain ⟨b, s, a⟩ := x
    cases b <;> simp [renderSpecs, renderSuffix, hasToken_eq, notToken_eq]

theorem renderSpecs_getLast :
    ∀ {specs : List (Bool × Chars × Selector)} {d : Char}, specs ≠ [] →
      (renderSpecs specs).getLast? = some d → d = ')'
  | [], _, hne, _ => absurd rfl hne
  | x :: t, d, _, h => by
    cases ht : t with
    | nil =>
      subst ht
      rw [show renderSpecs [x] = renderSuffix x.1 x.2.1 from by simp [renderSpecs],
        renderSuffix_getLast] at h
      cases h
      rfl
    | cons y t2 =>
      rw [renderSpecs_cons, List.getLast?_append] at h
      have hne2 : renderSpecs t ≠ [] := renderSpecs_ne_nil (by rw [ht]; simp)
      have hg : (renderSpecs t).getLast? = some d := by
        cases hg0 : (renderSpecs t).getLast? with
        | none => exact absurd (List.getLast?_eq_none_iff.mp hg0) hne2
        | some z =>
          rw [hg0] at h
          simp [Option.or] at h
          rw [h]
      exact renderSpecs_getLast (by rw [ht]; simp) hg

theorem renderSpecs_getLast_eq {specs : List (Bool × Chars × Selector)}
    (hsne : specs ≠ []) : (renderSpecs specs).getLast? = some ')' := by
  cases hg : (renderSpecs specs).getLast? with
  | none => exact absurd (List.getLast?_eq_none_iff.mp hg) (renderSpecs_ne_nil hsne)
  | some d => rw [renderSpecs_getLast hsne hg]

theorem suffixesFuel_le :
    ∀ (specs : List (Bool × Chars × Selector)),
      suffixesFuel specs ≤ 10 * (renderSpecs specs).length + 1
  | [] => by simp [suffixesFuel, renderSpecs]
  | x :: t => by
    have ih := suffixesFuel_le t
    have hf : fuelOf x.2.1 = 10 * x.2.1.length + 20 := rfl
    rw [show suffixesFuel (x :: t) = fuelOf x.2.1 + 3 + suffixesFuel t from rfl]
    rw [renderSpecs_cons, List.length_append, renderSuffix_len]
    omega

theorem parse_clauses_specs {cs : List AttrClause} {wsStr : Chars}
    {specs : List (Bool × Chars × Selector)}
    (hwf : ∀ c ∈ cs, wfClause c) (hne : cs ≠ [])
    (hws : ∀ c ∈ wsStr, c.isWhitespace = true)
    (hspecs : ∀ x ∈ specs, parenFree x.2.1 ∧ ParsesTo x.2.1 x.2.2)
    (hsne : specs ≠ []) :
    Selector.parse (clausesRender cs ++ wsStr ++ renderSpecs specs)
      = .ok (.complex cs
          (applySuffixes none none (specs.map (fun x => (x.1, x.2.2)))).1
          (applySuffixes none none (specs.map (fun x => (x.1, x.2.2)))).2) := by
  have h0 : (clausesRender cs ++ wsStr ++ renderSpecs specs).drop 0
      = clausesRender cs ++ (wsStr ++ renderSpecs specs) := by
    simp [List.append_assoc]
  have hhead : (clausesRender cs ++ wsStr ++ renderSpecs specs).head? = some '[' := by
    rw [List.append_assoc]
    cases hcs : cs with
    | nil => exact absurd hcs hne
    | cons c t => simp [clausesRender_cons, renderClause]
  have hskip0 : skipWs (clausesRender cs ++ wsStr ++ renderSpecs specs) 0 = 0 := by
    apply @skipWs_stop _ _ (clausesRender cs ++ wsStr ++ renderSpecs specs)
      (List.drop_zero _)
    intro c hc
    rw [hhead] at hc
    injection hc with hc
    rw [← hc]
    decide
  have hSlast : (clausesRender cs ++ wsStr ++ renderSpecs specs).getLast?
      = some ')' := by
    rw [List.getLast?_append, renderSpecs_getLast_eq hsne]
    rfl
  have htrim : trimChars (clausesRender cs ++ wsStr ++ renderSpecs specs)
      = clausesRender cs ++ wsStr ++ renderSpecs specs := by
    apply trimChars_eq_self
    · intro c hc
      rw [hhead] at hc
      injection hc with hc
      rw [← hc]
      decide
    · intro c hc
      rw [hSlast] at hc
      injection hc with hc
      rw [← hc]
      decide
  have hcomplex := complexAfterF_suffixes hwf hne hws hspecs hsne h0
  have hcx : ∀ f, cs.length + suffixesFuel specs + 5 ≤ f →
      parseComplexSelF f (clausesRender cs ++ wsStr ++ renderSpecs specs) 0
        = .ok (.complex cs
            (applySuffixes none none (specs.map (fun x => (x.1, x.2.2)))).1
            (applySuffixes none none (specs.map (fun x => (x.1, x.2.2)))).2,
          (clausesRender cs).length + wsStr.length + (renderSpecs specs).length) := by
    intro f hf
    obtain ⟨g, rfl⟩ : ∃ g, f = g + 1 := ⟨f - 1, by omega⟩
    have hp : peek (clausesRender cs ++ wsStr ++ renderSpecs specs)
        (skipWs (clausesRender cs ++ wsStr ++ renderSpecs specs) 0) ≠ some ':' := by
      rw [hskip0, peek, List.drop_zero, hhead]
      intro hc
      injection hc with hc
      exact absurd hc (by decide)
    rw [parseComplexSelF_not_colon hp g, hskip0, hcomplex g (by omega)]
    rw [show (0 : Nat) + (clausesRender cs).length + wsStr.length
        + (renderSpecs specs).length
      = (clausesRender cs).length + wsStr.length + (renderSpecs specs).length from by omega]
  have hlenS : (clausesRender cs ++ wsStr ++ renderSpecs specs).length
      = (clausesRender cs).length + wsStr.length + (renderSpecs specs).length := by
    simp [List.length_append]
    omega
  have hdropN : (clausesRender cs ++ wsStr ++ renderSpecs specs).drop
      ((clausesRender cs).length + wsStr.length + (renderSpecs specs).length) = [] := by
    rw [← hlenS]
    exact List.drop_length _
  have hskipN : skipWs (clausesRender cs ++ wsStr ++ renderSpecs specs)
      ((clausesRender cs).length + wsStr.length + (renderSpecs specs).length)
      = (clausesRender cs).length + wsStr.length + (renderSpecs specs).length :=
    skipWs_nil hdropN
  have hchild : ∀ f, cs.length + suffixesFuel specs + 7 ≤ f →
      parseChildCombF f (clausesRender cs ++ wsStr ++ renderSpecs specs) 0
        = .ok (.complex cs
            (applySuffixes none none (specs.map (fun x => (x.1, x.2.2)))).1
            (applySuffixes none none (specs.map (fun x => (x.1, x.2.2)))).2,
          (clausesRender cs).length + wsStr.length + (renderSpecs specs).length) := by
    intro f hf
    have h1 := parseChildCombF_single hcx
      (by rw [hskipN, peek, hdropN]; simp) f (by omega)
    rwa [hskipN] at h1
  have hchain : ∀ f, cs.length + suffixesFuel specs + 9 ≤ f →
      parseDescChainF f (clausesRender cs ++ wsStr ++ renderSpecs specs)
        (skipWs (clausesRender cs ++ wsStr ++ renderSpecs specs) 0)
        = .ok (.complex cs
            (applySuffixes none none (specs.map (fun x => (x.1, x.2.2)))).1
            (applySuffixes none none (specs.map (fun x => (x.1, x.2.2)))).2,
          (clausesRender cs).length + wsStr.length + (renderSpecs specs).length) := by
    intro f hf
    rw [hskip0]
    have h1 := parseDescChainF_to_eof hchild (by rw [hskipN]; exact hdropN) f (by omega)
    rwa [hskipN] at h1
  have hc0 : peek (clausesRender cs ++ wsStr ++ renderSpecs specs)
      (skipWs (clausesRender cs ++ wsStr ++ renderSpecs specs) 0) = some '[' := by
    rw [hskip0, peek, List.drop_zero, hhead]
  have hlen1 := clausesRender_length_ge cs
  have hlen2 := suffixesFuel_le specs
  exact selParseF_of_chain htrim hc0 (by decide) hchain
    (by rw [hskipN]; exact hdropN)
    (fuelOf (clausesRender cs ++ wsStr ++ renderSpecs specs))
    (by rw [show fuelOf (clausesRender cs ++ wsStr ++ renderSpecs specs)
          = 10 * (clausesRender cs ++ wsStr ++ renderSpecs specs).length + 20 from rfl,
        hlenS]
        omega)

theorem hasAncestorMatching_eq (sel : Selector) :
    ∀ (n : XNode) (anc : List XNode),
      hasAncestorMatching sel ⟨n, anc⟩ = (ancLocs anc).any (fun l => sel.matches l)
  | _, [] => by simp [hasAncestorMatching, ancLocs]
  | n, p :: rest => by
    rw [show hasAncestorMatching sel ⟨n, p :: rest⟩
        = (Selector.matches sel ⟨p, rest⟩ || hasAncestorMatching sel ⟨p, rest⟩) from by
      simp [hasAncestorMatching]]
    rw [hasAncestorMatching_eq sel p rest]
    simp [ancLocs]

mutual

theorem hasDescendantMatching_eq (sel : Selector) (loc : NodeLoc) :
    hasDescendantMatching sel loc
      = (properDescLocs loc).any (fun l => sel.matches l) :=
  match loc with
  | ⟨.element a cs, anc⟩ => by
    rw [show hasDescendantMatching sel ⟨.element a cs, anc⟩
        = childScanMatching sel cs (XNode.element a cs :: anc) from by
      simp [hasDescendantMatching]]
    rw [show properDescLocs ⟨.element a cs, anc⟩
        = descListLocs cs (XNode.element a cs :: anc) from by
      simp [properDescLocs]]
    exact childScanMatching_eq sel cs (XNode.element a cs :: anc)
  | ⟨.text t, anc⟩ => by
    simp [hasDescendantMatching, properDescLocs]
termination_by (sizeOf loc.node, 0)

theorem childScanMatching_eq (sel : Selector) (cs anc : List XNode) :
    childScanMatching sel cs anc
      = (descListLocs cs anc).any (fun l => sel.matches l) :=
  match cs with
  | [] => by simp [childScanMatching, descListLocs]
  | c :: rest => by
    rw [show childScanMatching sel (c :: rest) anc
        = (Selector.matches sel ⟨c, anc⟩ || hasDescendantMatching sel ⟨c, anc⟩
            || childScanMatching sel rest anc) from by
      simp [childScanMatching]]
    rw [show descListLocs (c :: rest) anc
        = ⟨c, anc⟩ :: (properDescLocs ⟨c, anc⟩ ++ descListLocs rest anc) from by
      simp [descListLocs]]
    rw [hasDescendantMatching_eq sel ⟨c, anc⟩, childScanMatching_eq sel rest anc]
    simp [List.any_append, Bool.or_assoc]
termination_by (sizeOf cs, 1)

end

theorem pres_bind_ok {α β : Type} (a : α) (f : α → PRes β) :
    PRes.bind (.ok a) f = f a := rfl

theorem pres_bind_panicked {α β : Type} (f : α → PRes β) :
    PRes.bind (.panicked : PRes α) f = .panicked := rfl

theorem parseLegacy_ok_iff (t : Chars) :
    (∃ sel, parseLegacy t = .ok sel)
      ↔ (t.contains '=' && !t.contains '[' && !t.contains ':'
          && !(trimChars (t.takeWhile (fun c => c != '='))).isEmpty
          && !(specStripQuotes
                (trimChars ((t.dropWhile (fun c => c != '=')).drop 1))).isEmpty)
        = true := by
  unfold parseLegacy legacyStripQuotes specStripQuotes
  cases hg : (t.contains '=' && !t.contains '[' && !t.contains ':') with
  | false => simp [hg]
  | true =>
    rw [if_pos rfl]
    dsimp only []
    simp only [Bool.true_and]
    cases hq : ((trimChars ((t.dropWhile (fun c => c != '=')).drop 1)).head? == some '"'
          && (trimChars ((t.dropWhile (fun c => c != '=')).drop 1)).getLast? == some '"'
        || ((trimChars ((t.dropWhile (fun c => c != '=')).drop 1)).head? == some '\''
          && (trimChars ((t.dropWhile (fun c => c != '=')).drop 1)).getLast?
              == some '\'')) with
    | false =>
      rw [if_neg Bool.false_ne_true, if_neg Bool.false_ne_true]
      simp only [pres_bind_ok]
      cases hb : (!(trimChars (t.takeWhile (fun c => c != '='))).isEmpty
          && !(trimChars ((t.dropWhile (fun c => c != '=')).drop 1)).isEmpty) with
      | false =>
        rw [if_neg Bool.false_ne_true]
        exact ⟨fun ⟨sel, hsel⟩ => PRes.noConfusion hsel,
          fun hc => absurd hc Bool.false_ne_true⟩
      | true =>
        rw [if_pos rfl]
        exact ⟨fun _ => rfl, fun _ => ⟨_, rfl⟩⟩
    | true =>
      rw [if_pos rfl, if_pos rfl]
      by_cases hlen : (trimChars ((t.dropWhile (fun c => c != '=')).drop 1)).length < 2
      · rw [if_pos hlen, pres_bind_panicked]
        have hempty : ((trimChars ((t.dropWhile (fun c => c != '=')).drop 1)).drop 1).take
            ((trimChars ((t.dropWhile (fun c => c != '=')).drop 1)).length - 2) = [] := by
          rw [show (trimChars ((t.dropWhile (fun c => c != '=')).drop 1)).length - 2 = 0
            from by omega]
          rfl
        rw [hempty]
        constructor
        · rintro ⟨sel, hsel⟩
          exact PRes.noConfusion hsel
        · intro hc
          simp at hc
      · rw [if_neg hlen]
        simp only [pres_bind_ok]
        cases hb : (!(trimChars (t.takeWhile (fun c => c != '='))).isEmpty
            && !(((trimChars ((t.dropWhile (fun c => c != '=')).drop 1)).drop 1).take
              ((trimChars ((t.dropWhile (fun c => c != '=')).drop 1)).length
                - 2)).isEmpty) with
        | false =>
          rw [if_neg Bool.false_ne_true]
          exact ⟨fun ⟨sel, hsel⟩ => PRes.noConfusion hsel,
            fun hc => absurd hc Bool.false_ne_true⟩
        | true =>
          rw [if_pos rfl]
          exact ⟨fun _ => rfl, fun _ => ⟨_, rfl⟩⟩

theorem parseLegacy_fail_msg {t : Chars} {e : String}
    (h : parseLegacy t = .fail e) :
    e = "Invalid selector format: " ++ t.asString := by
  unfold parseLegacy legacyStripQuotes at h
  cases hg : (t.contains '=' && !t.contains '[' && !t.contains ':') with
  | false =>
    rw [hg] at h
    simp at h
    exact h.symm
  | true =>
    rw [hg] at h
    simp only [if_true] at h
    by_cases hq : (((trimChars ((t.dropWhile (fun c => c != '=')).drop 1)).head?
            == some '"'
          && (trimChars ((t.dropWhile (fun c => c != '=')).drop 1)).getLast? == some '"'
        || ((trimChars ((t.dropWhile (fun c => c != '=')).drop 1)).head? == some '\''
          && (trimChars ((t.dropWhile (fun c => c != '=')).drop 1)).getLast?
              == some '\'')) = true)
    · rw [if_pos hq] at h
      by_cases hlen : (trimChars ((t.dropWhile (fun c => c != '=')).drop 1)).length < 2
      · rw [if_pos hlen] at h
        exact absurd h (by simp [PRes.bind])
      · rw [if_neg hlen] at h
        simp only [PRes.bind] at h
        by_cases hb : ((!(trimChars (t.takeWhile (fun c => c != '='))).isEmpty
            && !(((trimChars ((t.dropWhile (fun c => c != '=')).drop 1)).drop 1).take
                ((trimChars ((t.dropWhile (fun c => c != '=')).drop 1)).length
                  - 2)).isEmpty) = true)
        · rw [if_pos hb] at h
          exact absurd h (by simp)
        · rw [if_neg hb] at h
          simp at h
          exact h.symm
    · rw [if_neg hq] at h
      simp only [PRes.bind] at h
      by_cases hb : ((!(trimChars (t.takeWhile (fun c => c != '='))).isEmpty
          && !(trimChars ((t.dropWhile (fun c => c != '=')).drop 1)).isEmpty) = true)
      · rw [if_pos hb] at h
        exact absurd h (by simp)
      · rw [if_neg hb] at h
        simp at h
        exact h.symm

theorem selParse_unfold (s : Chars) :
    Selector.parse s
      = match parserParseF (10 * s.length + 19) (trimChars s) with
        | .ok sel => .ok sel
        | .fail _ => parseLegacy (trimChars s)
        | .panicked => .panicked
        | .nofuel => .nofuel := rfl

theorem clausesRender_getLast_eq {cs : List AttrClause} (hne : cs ≠ []) :
    (clausesRender cs).getLast? = some ']' := by
  cases hg : (clausesRender cs).getLast? with
  | none => exact absurd (List.getLast?_eq_none_iff.mp hg) (clausesRender_ne_nil hne)
  | some d => rw [clausesRender_getLast hne hg]

theorem clausesRender_head_ex {cs : List AttrClause} (hne : cs ≠ []) {l : Chars} :
    (clausesRender cs ++ l).head? = some '[' := by
  cases hcs : cs with
  | nil => exact absurd hcs hne
  | cons c t => simp [clausesRender_cons, renderClause]

theorem skipWs_single_space {input : Chars} {pos : Nat} {rest : Chars} {c : Char}
    (h : input.drop pos = ' ' :: rest) (hr : rest.head? = some c)
    (hc : c.isWhitespace = false) :
    skipWs input pos = pos + 1 := by
  rw [skipWs_of_drop h]
  cases rest with
  | nil => cases hr
  | cons d t =>
    have hd : d = c := by injection hr
    subst hd
    rw [List.takeWhile_cons_of_pos (by decide), List.takeWhile_cons_of_neg (by simp [hc])]
    rfl

theorem clausesRender_head_eq {cs : List AttrClause} (hne : cs ≠ []) :
    (clausesRender cs).head? = some '[' := by
  cases hcs : cs with
  | nil => exact absurd hcs hne
  | cons c t => simp [clausesRender_cons, renderClause]

theorem parse_child_desc_general {cs1 cs2 cs3 : List AttrClause}
    (hw1 : ∀ c ∈ cs1, wfClause c) (hn1 : cs1 ≠ [])
    (hw2 : ∀ c ∈ cs2, wfClause c) (hn2 : cs2 ≠ [])
    (hw3 : ∀ c ∈ cs3, wfClause c) (hn3 : cs3 ≠ []) :
    Selector.parse (clausesRender cs1
        ++ (' ' :: '>' :: ' ' :: (clausesRender cs2 ++ (' ' :: clausesRender cs3))))
      = .ok (.descendant (.child (.and cs1) (.and cs2)) (.and cs3)) := by
  have hd0 : (clausesRender cs1
      ++ (' ' :: '>' :: ' ' :: (clausesRender cs2 ++ (' ' :: clausesRender cs3)))).drop 0
      = clausesRender cs1
        ++ (' ' :: '>' :: ' ' :: (clausesRender cs2 ++ (' ' :: clausesRender cs3))) :=
    List.drop_zero _
  have hda : (clausesRender cs1
      ++ (' ' :: '>' :: ' ' :: (clausesRender cs2 ++ (' ' :: clausesRender cs3)))).drop
        (clausesRender cs1).length
      = ' ' :: '>' :: ' ' :: (clausesRender cs2 ++ (' ' :: clausesRender cs3)) := by
    rw [List.drop_left]
  have hda1 : (clausesRender cs1
      ++ (' ' :: '>' :: ' ' :: (clausesRender cs2 ++ (' ' :: clausesRender cs3)))).drop
        ((clausesRender cs1).length + 1)
      = '>' :: ' ' :: (clausesRender cs2 ++ (' ' :: clausesRender cs3)) := by
    rw [drop_add_eq, hda]
    rfl
  have hda2 : (clausesRender cs1
      ++ (' ' :: '>' :: ' ' :: (clausesRender cs2 ++ (' ' :: clausesRender cs3)))).drop
        ((clausesRender cs1).length + 1 + 1)
      = ' ' :: (clausesRender cs2 ++ (' ' :: clausesRender cs3)) := by
    rw [drop_add_eq, hda1]
    rfl
  have hda3 : (clausesRender cs1
      ++ (' ' :: '>' :: ' ' :: (clausesRender cs2 ++ (' ' :: clausesRender cs3)))).drop
        ((clausesRender cs1).length + 1 + 1 + 1)
      = clausesRender cs2 ++ (' ' :: clausesRender cs3) := by
    rw [drop_add_eq, hda2]
    rfl
  have hdb : (clausesRender cs1
      ++ (' ' :: '>' :: ' ' :: (clausesRender cs2 ++ (' ' :: clausesRender cs3)))).drop
        ((clausesRender cs1).length + 1 + 1 + 1 + (clausesRender cs2).length)
      = ' ' :: clausesRender cs3 := by
    rw [drop_add_eq, hda3, List.drop_left]
  have hdb1 : (clausesRender cs1
      ++ (' ' :: '>' :: ' ' :: (clausesRender cs2 ++ (' ' :: clausesRender cs3)))).drop
        ((clausesRender cs1).length + 1 + 1 + 1 + (clausesRender cs2).length + 1)
      = clausesRender cs3 := by
    rw [drop_add_eq, hdb]
    rfl
  have hdN : (clausesRender cs1
      ++ (' ' :: '>' :: ' ' :: (clausesRender cs2 ++ (' ' :: clausesRender cs3)))).drop
        ((clausesRender cs1).length + 1 + 1 + 1 + (clausesRender cs2).length + 1
          + (clausesRender cs3).length)
      = [] := by
    rw [drop_add_eq, hdb1, List.drop_length]
  have hsk0 : skipWs (clausesRender cs1
      ++ (' ' :: '>' :: ' ' :: (clausesRender cs2 ++ (' ' :: clausesRender cs3)))) 0
      = 0 := by
    apply skipWs_stop hd0
    intro c hc
    rw [clausesRender_head_ex hn1] at hc
    injection hc with hc
    rw [← hc]
    decide
  have hska : skipWs (clausesRender cs1
      ++ (' ' :: '>' :: ' ' :: (clausesRender cs2 ++ (' ' :: clausesRender cs3))))
        (clausesRender cs1).length
      = (clausesRender cs1).length + 1 :=
    skipWs_single_space hda rfl (by decide)
  have hska1 : skipWs (clausesRender cs1
      ++ (' ' :: '>' :: ' ' :: (clausesRender cs2 ++ (' ' :: clausesRender cs3))))
        ((clausesRender cs1).length + 1)
      = (clausesRender cs1).length + 1 := by
    apply skipWs_stop hda1
    intro c hc
    rw [List.head?_cons] at hc
    injection hc with hc
    rw [← hc]
    decide
  have hska2 : skipWs (clausesRender cs1
      ++ (' ' :: '>' :: ' ' :: (clausesRender cs2 ++ (' ' :: clausesRender cs3))))
        ((clausesRender cs1).length + 1 + 1)
      = (clausesRender cs1).length + 1 + 1 + 1 :=
    skipWs_single_space hda2 (clausesRender_head_ex hn2) (by decide)
  have hsk3 : skipWs (clausesRender cs1
      ++ (' ' :: '>' :: ' ' :: (clausesRender cs2 ++ (' ' :: clausesRender cs3))))
        ((clausesRender cs1).length + 1 + 1 + 1)
      = (clausesRender cs1).length + 1 + 1 + 1 := by
    apply skipWs_stop hda3
    intro c hc
    rw [clausesRender_head_ex hn2] at hc
    injection hc with hc
    rw [← hc]
    decide
  have hskb : skipWs (clausesRender cs1
      ++ (' ' :: '>' :: ' ' :: (clausesRender cs2 ++ (' ' :: clausesRender cs3))))
        ((clausesRender cs1).length + 1 + 1 + 1 + (clausesRender cs2).length)
      = (clausesRender cs1).length + 1 + 1 + 1 + (clausesRender cs2).length + 1 :=
    skipWs_single_space hdb (clausesRender_head_eq hn3) (by decide)
  have hske : skipWs (clausesRender cs1
      ++ (' ' :: '>' :: ' ' :: (clausesRender cs2 ++ (' ' :: clausesRender cs3))))
        ((clausesRender cs1).length + 1 + 1 + 1 + (clausesRender cs2).length + 1)
      = (clausesRender cs1).length + 1 + 1 + 1 + (clausesRender cs2).length + 1 := by
    apply skipWs_stop hdb1
    intro c hc
    rw [clausesRender_head_eq hn3] at hc
    injection hc with hc
    rw [← hc]
    decide
  have hskN : skipWs (clausesRender cs1
      ++ (' ' :: '>' :: ' ' :: (clausesRender cs2 ++ (' ' :: clausesRender cs3))))
        ((clausesRender cs1).length + 1 + 1 + 1 + (clausesRender cs2).length + 1
          + (clausesRender cs3).length)
      = (clausesRender cs1).length + 1 + 1 + 1 + (clausesRender cs2).length + 1
          + (clausesRender cs3).length :=
    skipWs_nil hdN
  have hcx1 : ∀ f, cs1.length + 4 ≤ f →
      parseComplexSelF f (clausesRender cs1
        ++ (' ' :: '>' :: ' ' :: (clausesRender cs2 ++ (' ' :: clausesRender cs3)))) 0
        = .ok (.and cs1, (clausesRender cs1).length + 1) := by
    intro f hf
    have h1 := @parseComplexSelF_and _ 0 cs1 _ hw1 hn1
      (by rw [hsk0]; exact hd0)
      (by intro hcon
          rw [List.head?_cons] at hcon
          injection hcon with hcon
          exact absurd hcon (by decide))
      (by rw [hsk0, Nat.zero_add, hska, peek, hda1, List.head?_cons]
          intro hc
          injection hc with hc
          exact absurd hc (by decide))
      f hf
    rw [hsk0, Nat.zero_add, hska] at h1
    exact h1
  have hcx2 : ∀ f, cs2.length + 4 ≤ f →
      parseComplexSelF f (clausesRender cs1
        ++ (' ' :: '>' :: ' ' :: (clausesRender cs2 ++ (' ' :: clausesRender cs3))))
        ((clausesRender cs1).length + 1 + 1 + 1)
        = .ok (.and cs2, (clausesRender cs1).length + 1 + 1 + 1
            + (clausesRender cs2).length + 1) := by
    intro f hf
    have h1 := @parseComplexSelF_and _
      ((clausesRender cs1).length + 1 + 1 + 1) cs2 _ hw2 hn2
      (by rw [hsk3]; exact hda3)
      (by intro hcon
          rw [List.head?_cons] at hcon
          injection hcon with hcon
          exact absurd hcon (by decide))
      (by rw [hsk3, hskb, peek, hdb1, clausesRender_head_eq hn3]
          intro hc
          injection hc with hc
          exact absurd hc (by decide))
      f hf
    rw [hsk3, hskb] at h1
    exact h1
  have hloop1 : ∀ f, cs2.length + 6 ≤ f →
      childLoopF f (clausesRender cs1
        ++ (' ' :: '>' :: ' ' :: (clausesRender cs2 ++ (' ' :: clausesRender cs3))))
        ((clausesRender cs1).length + 1) (.and cs1)
        = .ok (.child (.and cs1) (.and cs2),
            (clausesRender cs1).length + 1 + 1 + 1 + (clausesRender cs2).length + 1) := by
    intro f hf
    refine @childLoopF_step _ _
      ((clausesRender cs1).length + 1 + 1 + 1 + (clausesRender cs2).length + 1)
      _ (.and cs2) _ (cs2.length + 4) 1 ?_ ?_ ?_ f (by omega)
    · rw [hska1, peek, hda1]
      rfl
    · intro g hg
      rw [hska1, advance_eq hda1, hska2]
      exact hcx2 g hg
    · intro g hg
      have h1 := @childLoopF_stop _ _ (.child (.and cs1) (.and cs2))
        (by rw [hske, peek, hdb1, clausesRender_head_eq hn3]
            intro hc
            injection hc with hc
            exact absurd hc (by decide))
        g hg
      rw [hske] at h1
      exact h1
  have hchild1 : ∀ f, cs1.length + cs2.length + 11 ≤ f →
      parseChildCombF f (clausesRender cs1
        ++ (' ' :: '>' :: ' ' :: (clausesRender cs2 ++ (' ' :: clausesRender cs3)))) 0
        = .ok (.child (.and cs1) (.and cs2),
            (clausesRender cs1).length + 1 + 1 + 1 + (clausesRender cs2).length + 1) :=
    fun f hf => parseChildCombF_start hcx1 hloop1 f (by omega)
  have hcx3 : ∀ f, cs3.length + 4 ≤ f →
      parseComplexSelF f (clausesRender cs1
        ++ (' ' :: '>' :: ' ' :: (clausesRender cs2 ++ (' ' :: clausesRender cs3))))
        ((clausesRender cs1).length + 1 + 1 + 1 + (clausesRender cs2).length + 1)
        = .ok (.and cs3, (clausesRender cs1).length + 1 + 1 + 1
            + (clausesRender cs2).length + 1 + (clausesRender cs3).length) := by
    intro f hf
    have h1 := @parseComplexSelF_and _
      ((clausesRender cs1).length + 1 + 1 + 1 + (clausesRender cs2).length + 1)
      cs3 [] hw3 hn3
      (by rw [hske, hdb1]
          exact (List.append_nil _).symm)
      (by simp)
      (by rw [hske, hskN, peek, hdN]; simp)
      f hf
    rw [hske, hskN] at h1
    exact h1
  have hloop3 : ∀ f, 1 ≤ f →
      childLoopF f (clausesRender cs1
        ++ (' ' :: '>' :: ' ' :: (clausesRender cs2 ++ (' ' :: clausesRender cs3))))
        ((clausesRender cs1).length + 1 + 1 + 1 + (clausesRender cs2).length + 1
          + (clausesRender cs3).length) (.and cs3)
        = .ok (.and cs3, (clausesRender cs1).length + 1 + 1 + 1
            + (clausesRender cs2).length + 1 + (clausesRender cs3).length) := by
    intro f hf
    have h1 := @childLoopF_stop _ _ (.and cs3) (by rw [hskN, peek, hdN]; simp) f hf
    rw [hskN] at h1
    exact h1
  have hchild3 : ∀ f, cs3.length + 6 ≤ f →
      parseChildCombF f (clausesRender cs1
        ++ (' ' :: '>' :: ' ' :: (clausesRender cs2 ++ (' ' :: clausesRender cs3))))
        ((clausesRender cs1).length + 1 + 1 + 1 + (clausesRender cs2).length + 1)
        = .ok (.and cs3, (clausesRender cs1).length + 1 + 1 + 1
            + (clausesRender cs2).length + 1 + (clausesRender cs3).length) :=
    fun f hf => parseChildCombF_start hcx3 hloop3 f (by omega)
  have hdrest : ∀ f, 1 ≤ f →
      descLoopF f (clausesRender cs1
        ++ (' ' :: '>' :: ' ' :: (clausesRender cs2 ++ (' ' :: clausesRender cs3))))
        ((clausesRender cs1).length + 1 + 1 + 1 + (clausesRender cs2).length + 1
          + (clausesRender cs3).length)
        (.descendant (.child (.and cs1) (.and cs2)) (.and cs3))
        = .ok (.descendant (.child (.and cs1) (.and cs2)) (.and cs3),
            (clausesRender cs1).length + 1 + 1 + 1 + (clausesRender cs2).length + 1
              + (clausesRender cs3).length) := by
    intro f hf
    have h1 := @descLoopF_eof _ _
      (.descendant (.child (.and cs1) (.and cs2)) (.and cs3))
      (by rw [hskN]; exact hdN) f hf
    rw [hskN] at h1
    exact h1
  have hdloop : ∀ f, cs3.length + 8 ≤ f →
      descLoopF f (clausesRender cs1
        ++ (' ' :: '>' :: ' ' :: (clausesRender cs2 ++ (' ' :: clausesRender cs3))))
        ((clausesRender cs1).length + 1 + 1 + 1 + (clausesRender cs2).length + 1)
        (.child (.and cs1) (.and cs2))
        = .ok (.descendant (.child (.and cs1) (.and cs2)) (.and cs3),
            (clausesRender cs1).length + 1 + 1 + 1 + (clausesRender cs2).length + 1
              + (clausesRender cs3).length) := by
    intro f hf
    refine @descLoopF_step _ _
      ((clausesRender cs1).length + 1 + 1 + 1 + (clausesRender cs2).length + 1
        + (clausesRender cs3).length)
      _ (.and cs3) _ (cs3.length + 6) 1 '['
      ?_ (Or.inl rfl) ?_ hdrest f (by omega)
    · rw [hske, peek, hdb1, clausesRender_head_eq hn3]
    · intro g hg
      rw [hske]
      exact hchild3 g hg
  have hchain0 : ∀ f, cs1.length + cs2.length + cs3.length + 20 ≤ f →
      parseDescChainF f (clausesRender cs1
        ++ (' ' :: '>' :: ' ' :: (clausesRender cs2 ++ (' ' :: clausesRender cs3))))
        (skipWs (clausesRender cs1
          ++ (' ' :: '>' :: ' ' :: (clausesRender cs2 ++ (' ' :: clausesRender cs3)))) 0)
        = .ok (.descendant (.child (.and cs1) (.and cs2)) (.and cs3),
            (clausesRender cs1).length + 1 + 1 + 1 + (clausesRender cs2).length + 1
              + (clausesRender cs3).length) := by
    intro f hf
    rw [hsk0]
    exact parseDescChainF_start hchild1 hdloop f (by omega)
  have hassoc : clausesRender cs1
      ++ (' ' :: '>' :: ' ' :: (clausesRender cs2 ++ (' ' :: clausesRender cs3)))
      = (clausesRender cs1 ++ [' ', '>', ' '] ++ clausesRender cs2 ++ [' '])
          ++ clausesRender cs3 := by
    simp [List.append_assoc]
  have hglast : (clausesRender cs1
      ++ (' ' :: '>' :: ' ' :: (clausesRender cs2 ++ (' ' :: clausesRender cs3)))).getLast?
      = some ']' := by
    rw [hassoc, List.getLast?_append, clausesRender_getLast_eq hn3]
    rfl
  have htrim : trimChars (clausesRender cs1
      ++ (' ' :: '>' :: ' ' :: (clausesRender cs2 ++ (' ' :: clausesRender cs3))))
      = clausesRender cs1
        ++ (' ' :: '>' :: ' ' :: (clausesRender cs2 ++ (' ' :: clausesRender cs3))) := by
    apply trimChars_eq_self
    · intro c hc
      rw [clausesRender_head_ex hn1] at hc
      injection hc with hc
      rw [← hc]
      decide
    · intro c hc
      rw [hglast] at hc
      injection hc with hc
      rw [← hc]
      decide
  have hc0 : peek (clausesRender cs1
      ++ (' ' :: '>' :: ' ' :: (clausesRender cs2 ++ (' ' :: clausesRender cs3))))
      (skipWs (clausesRender cs1
        ++ (' ' :: '>' :: ' ' :: (clausesRender cs2 ++ (' ' :: clausesRender cs3)))) 0)
      = some '[' := by
    rw [hsk0, peek, hd0, clausesRender_head_ex hn1]
  have hlg1 := clausesRender_length_ge cs1
  have hlg2 := clausesRender_length_ge cs2
  have hlg3 := clausesRender_length_ge cs3
  have hlenS : (clausesRender cs1
      ++ (' ' :: '>' :: ' ' :: (clausesRender cs2 ++ (' ' :: clausesRender cs3)))).length
      = (clausesRender cs1).length + (clausesRender cs2).length
          + (clausesRender cs3).length + 4 := by
    simp [List.length_append]
    omega
  exact selParseF_of_chain htrim hc0 (by decide) hchain0
    (by rw [hskN]; exact hdN)
    (fuelOf (clausesRender cs1
      ++ (' ' :: '>' :: ' ' :: (clausesRender cs2 ++ (' ' :: clausesRender cs3)))))
    (by rw [show fuelOf (clausesRender cs1
          ++ (' ' :: '>' :: ' ' :: (clausesRender cs2 ++ (' ' :: clausesRender cs3))))
        = 10 * (clausesRender cs1
          ++ (' ' :: '>' :: ' ' :: (clausesRender cs2
            ++ (' ' :: clausesRender cs3)))).length + 20 from rfl, hlenS]
        omega)

theorem parse_has_not_general {sA sB : Chars} {A B : Selector}
    (hpfA : parenFree sA) (hA : ParsesTo sA A)
    (hpfB : parenFree sB) (hB : ParsesTo sB B) :
    Selector.parse (hasToken ++ (sA ++ (')' :: (notToken ++ (sB ++ (')' :: []))))))
      = .ok (.descendant (.has A) (.not B)) := by
  have hd0 : (hasToken ++ (sA ++ (')' :: (notToken
      ++ (sB ++ (')' :: [])))))).drop 0
      = hasToken ++ (sA ++ (')' :: (notToken ++ (sB ++ (')' :: []))))) :=
    List.drop_zero _
  have hd5 : (hasToken ++ (sA ++ (')' :: (notToken
      ++ (sB ++ (')' :: [])))))).drop 5
      = sA ++ (')' :: (notToken ++ (sB ++ (')' :: [])))) := by
    rw [hasToken_eq]
    rfl
  have hdp1 : (hasToken ++ (sA ++ (')' :: (notToken
      ++ (sB ++ (')' :: [])))))).drop (sA.length + 6)
      = notToken ++ (sB ++ (')' :: [])) := by
    rw [show sA.length + 6 = 5 + (sA.length + 1) from by omega, drop_add_eq, hd5,
      drop_add_eq, List.drop_left]
    rfl
  have hd5' : (notToken ++ (sB ++ (')' :: []))).drop 5 = sB ++ (')' :: []) := by
    rw [notToken_eq]
    rfl
  have hdN : (hasToken ++ (sA ++ (')' :: (notToken
      ++ (sB ++ (')' :: [])))))).drop (sA.length + 6 + sB.length + 6)
      = [] := by
    rw [show sA.length + 6 + sB.length + 6 = (sA.length + 6) + (sB.length + 6)
      from by omega, drop_add_eq, hdp1,
      show sB.length + 6 = 5 + (sB.length + 1) from by omega, drop_add_eq, hd5',
      drop_add_eq, List.drop_left]
    rfl
  have hhead : (hasToken ++ (sA ++ (')' :: (notToken
      ++ (sB ++ (')' :: [])))))).head? = some ':' := by
    rw [hasToken_eq]
    rfl
  have hsk0 : skipWs (hasToken ++ (sA ++ (')' :: (notToken
      ++ (sB ++ (')' :: [])))))) 0 = 0 := by
    apply skipWs_stop hd0
    intro c hc
    rw [hhead] at hc
    injection hc with hc
    rw [← hc]
    decide
  have hhead2 : (notToken ++ (sB ++ (')' :: []))).head? = some ':' := by
    rw [notToken_eq]
    rfl
  have hskp1 : skipWs (hasToken ++ (sA ++ (')' :: (notToken
      ++ (sB ++ (')' :: [])))))) (sA.length + 6) = sA.length + 6 := by
    apply skipWs_stop hdp1
    intro c hc
    rw [hhead2] at hc
    injection hc with hc
    rw [← hc]
    decide
  have hskN : skipWs (hasToken ++ (sA ++ (')' :: (notToken
      ++ (sB ++ (')' :: [])))))) (sA.length + 6 + sB.length + 6)
      = sA.length + 6 + sB.length + 6 :=
    skipWs_nil hdN
  have hcx1 : ∀ f, fuelOf sA + 3 ≤ f →
      parseComplexSelF f (hasToken ++ (sA ++ (')' :: (notToken
        ++ (sB ++ (')' :: [])))))) 0
        = .ok (.has A, sA.length + 6) := by
    intro f hf
    obtain ⟨g, rfl⟩ : ∃ g, f = g + 1 := ⟨f - 1, by omega⟩
    rw [parseComplexSelF_bare_has (l := sA ++ (')' :: (notToken ++ (sB ++ (')' :: [])))))
      (by rw [hsk0]; exact hd0) g, hsk0]
    have h1 := parseHasSelF_ok hd0 hpfA hA g (by omega)
    rw [Nat.zero_add] at h1
    exact h1
  have hloop1 : ∀ f, 1 ≤ f →
      childLoopF f (hasToken ++ (sA ++ (')' :: (notToken
        ++ (sB ++ (')' :: [])))))) (sA.length + 6) (.has A)
        = .ok (.has A, sA.length + 6) := by
    intro f hf
    have h1 := @childLoopF_stop _ _ (.has A)
      (by rw [hskp1, peek, hdp1, hhead2]
          intro hc
          injection hc with hc
          exact absurd hc (by decide))
      f hf
    rw [hskp1] at h1
    exact h1
  have hchild1 : ∀ f, fuelOf sA + 5 ≤ f →
      parseChildCombF f (hasToken ++ (sA ++ (')' :: (notToken
        ++ (sB ++ (')' :: [])))))) 0
        = .ok (.has A, sA.length + 6) :=
    fun f hf => parseChildCombF_start hcx1 hloop1 f (by omega)
  have hcx2 : ∀ f, fuelOf sB + 3 ≤ f →
      parseComplexSelF f (hasToken ++ (sA ++ (')' :: (notToken
        ++ (sB ++ (')' :: [])))))) (sA.length + 6)
        = .ok (.not B, sA.length + 6 + sB.length + 6) := by
    intro f hf
    obtain ⟨g, rfl⟩ : ∃ g, f = g + 1 := ⟨f - 1, by omega⟩
    rw [parseComplexSelF_bare_not (l := sB ++ (')' :: []))
      (by rw [hskp1]; exact hdp1) g, hskp1]
    exact parseNotSelF_ok hdp1 hpfB hB g (by omega)
  have hloop2 : ∀ f, 1 ≤ f →
      childLoopF f (hasToken ++ (sA ++ (')' :: (notToken
        ++ (sB ++ (')' :: [])))))) (sA.length + 6 + sB.length + 6) (.not B)
        = .ok (.not B, sA.length + 6 + sB.length + 6) := by
    intro f hf
    have h1 := @childLoopF_stop _ _ (.not B) (by rw [hskN, peek, hdN]; simp) f hf
    rw [hskN] at h1
    exact h1
  have hchild2 : ∀ f, fuelOf sB + 5 ≤ f →
      parseChildCombF f (hasToken ++ (sA ++ (')' :: (notToken
        ++ (sB ++ (')' :: [])))))) (sA.length + 6)
        = .ok (.not B, sA.length + 6 + sB.length + 6) :=
    fun f hf => parseChildCombF_start hcx2 hloop2 f (by omega)
  have hdrest : ∀ f, 1 ≤ f →
      descLoopF f (hasToken ++ (sA ++ (')' :: (notToken
        ++ (sB ++ (')' :: [])))))) (sA.length + 6 + sB.length + 6)
        (.descendant (.has A) (.not B))
        = .ok (.descendant (.has A) (.not B), sA.length + 6 + sB.length + 6) := by
    intro f hf
    have h1 := @descLoopF_eof _ _ (.descendant (.has A) (.not B))
      (by rw [hskN]; exact hdN) f hf
    rw [hskN] at h1
    exact h1
  have hdloop : ∀ f, fuelOf sB + 7 ≤ f →
      descLoopF f (hasToken ++ (sA ++ (')' :: (notToken
        ++ (sB ++ (')' :: [])))))) (sA.length + 6) (.has A)
        = .ok (.descendant (.has A) (.not B), sA.length + 6 + sB.length + 6) := by
    intro f hf
    refine @descLoopF_step _ _ (sA.length + 6 + sB.length + 6)
      _ (.not B) _ (fuelOf sB + 5) 1 ':'
      ?_ (Or.inr rfl) ?_ hdrest f (by omega)
    · rw [hskp1, peek, hdp1, hhead2]
    · intro g hg
      rw [hskp1]
      exact hchild2 g hg
  have hchain : ∀ f, fuelOf sA + fuelOf sB + 13 ≤ f →
      parseDescChainF f (hasToken ++ (sA ++ (')' :: (notToken
        ++ (sB ++ (')' :: []))))))
        (skipWs (hasToken ++ (sA ++ (')' :: (notToken ++ (sB ++ (')' :: [])))))) 0)
        = .ok (.descendant (.has A) (.not B), sA.length + 6 + sB.length + 6) := by
    intro f hf
    rw [hsk0]
    exact parseDescChainF_start hchild1 hdloop f (by omega)
  have hassoc : hasToken ++ (sA ++ (')' :: (notToken ++ (sB ++ (')' :: [])))))
      = (hasToken ++ sA ++ [')'] ++ notToken ++ sB) ++ [')'] := by
    simp [List.append_assoc]
  have hglast : (hasToken ++ (sA ++ (')' :: (notToken
      ++ (sB ++ (')' :: [])))))).getLast? = some ')' := by
    rw [hassoc]
    exact List.getLast?_concat _
  have htrim : trimChars (hasToken ++ (sA ++ (')' :: (notToken
      ++ (sB ++ (')' :: []))))))
      = hasToken ++ (sA ++ (')' :: (notToken ++ (sB ++ (')' :: []))))) := by
    apply trimChars_eq_self
    · intro c hc
      rw [hhead] at hc
      injection hc with hc
      rw [← hc]
      decide
    · intro c hc
      rw [hglast] at hc
      injection hc with hc
      rw [← hc]
      decide
  have hc0 : peek (hasToken ++ (sA ++ (')' :: (notToken
      ++ (sB ++ (')' :: []))))))
      (skipWs (hasToken ++ (sA ++ (')' :: (notToken ++ (sB ++ (')' :: [])))))) 0)
      = some ':' := by
    rw [hsk0, peek, hd0, hhead]
  have hlenS : (hasToken ++ (sA ++ (')' :: (notToken
      ++ (sB ++ (')' :: [])))))).length = sA.length + sB.length + 12 := by
    simp [List.length_append, hasToken_eq, notToken_eq]
    omega
  exact selParseF_of_chain htrim hc0 (by decide) hchain
    (by rw [hskN]; exact hdN)
    (fuelOf (hasToken ++ (sA ++ (')' :: (notToken ++ (sB ++ (')' :: [])))))))
    (by rw [show fuelOf (hasToken ++ (sA ++ (')' :: (notToken
          ++ (sB ++ (')' :: []))))))
        = 10 * (hasToken ++ (sA ++ (')' :: (notToken
          ++ (sB ++ (')' :: [])))))).length + 20 from rfl, hlenS,
        show fuelOf sA = 10 * sA.length + 20 from rfl,
        show fuelOf sB = 10 * sB.length + 20 from rfl]
        omega)

theorem option_or_none {α : Type} (x : Option α) : x.or none = x := by
  cases x <;> rfl

theorem matches_non_element {sel : Selector} {loc : NodeLoc}
    (h : loc.node.isElement = false) : sel.matches loc = false := by
  unfold Selector.matches
  rw [h]
  simp

theorem matches_child_no_parent (p c : Selector) (loc : NodeLoc)
    (hanc : loc.ancestors = []) : (Selector.child p c).matches loc = false := by
  rw [Selector.matches.eq_def]
  obtain ⟨n, anc⟩ := loc
  simp at hanc
  subst hanc
  cases hn : n.isElement <;> simp

theorem matches_child_parent_not_element (p c : Selector) (loc : NodeLoc)
    {pn : XNode} {rest : List XNode}
    (hanc : loc.ancestors = pn :: rest) (hpn : pn.isElement = false) :
    (Selector.child p c).matches loc = false := by
  rw [Selector.matches.eq_def]
  obtain ⟨n, anc⟩ := loc
  simp at hanc
  subst hanc
  have hp : Selector.matches p ⟨pn, rest⟩ = false := matches_non_element hpn
  cases hn : n.isElement <;> simp [hp]

theorem matches_descendant_no_ancestor (a d : Selector) (loc : NodeLoc)
    (hD : ∀ l ∈ loc.ancestorLocs, a.matches l = false) :
    (Selector.descendant a d).matches loc = false := by
  rw [Selector.matches.eq_def]
  obtain ⟨n, anc⟩ := loc
  have hanc : hasAncestorMatching a ⟨n, anc⟩ = false := by
    rw [hasAncestorMatching_eq, List.any_eq_false]
    intro l hl
    simp [hD l hl]
  cases hn : n.isElement <;> simp [hanc]

theorem matches_has_elem (inner : Selector) (a : List (Chars × Chars))
    (cs anc : List XNode) :
    (Selector.has inner).matches ⟨.element a cs, anc⟩
      = hasDescendantMatching inner ⟨.element a cs, anc⟩ := by
  unfold Selector.matches
  simp [XNode.isElement]

theorem map_filter_getLast_has :
    ∀ (specs : List (Bool × Chars × Selector)),
      (((specs.map (fun x => (x.1, x.2.2))).filter (fun x => x.1)).getLast?).map Prod.snd
        = ((specs.filter (fun x => x.1)).getLast?).map (fun x => x.2.2)
  | [] => rfl
  | x :: t => by
    have ih := map_filter_getLast_has t
    cases hb : x.1 with
    | true =>
      simp [List.filter_cons, hb, getLast?_cons_or, option_map_or]
      simp at ih
      rw [ih]
    | false =>
      simp [List.filter_cons, hb]
      simpa using ih

theorem map_filter_getLast_neg :
    ∀ (specs : List (Bool × Chars × Selector)),
      (((specs.map (fun x => (x.1, x.2.2))).filter (fun x => !x.1)).getLast?).map Prod.snd
        = ((specs.filter (fun x => !x.1)).getLast?).map (fun x => x.2.2)
  | [] => rfl
  | x :: t => by
    have ih := map_filter_getLast_neg t
    cases hb : x.1 with
    | true =>
      simp [List.filter_cons, hb]
      simpa using ih
    | false =>
      simp [List.filter_cons, hb, getLast?_cons_or, option_map_or]
      simp at ih
      rw [ih]

/-- Claim C1 (corrected): whitespace between an attribute-clause sequence and a
following `:has(...)` suffix is NOT a descendant separator.  The parser skips
the whitespace inside the complex-selector suffix loop, so the pseudo-class
attaches as a suffix and the result is a `Complex` selector, not a
`Descendant` selector. -/
theorem C1_ws_before_pseudo_merges (cs : List AttrClause) (ws sI : Chars) (A : Selector)
    (hwf : ∀ c ∈ cs, wfClause c) (hne : cs ≠ [])
    (hwsne : ws ≠ []) (hws : ∀ c ∈ ws, c.isWhitespace = true)
    (hpf : parenFree sI) (hA : ParsesTo sI A) :
    Selector.parse (clausesRender cs ++ ws ++ renderSuffix true sI)
      = .ok (.complex cs (some A) none) := by
  have hx1 : ∀ x ∈ [(true, sI, A)], parenFree x.2.1 ∧ ParsesTo x.2.1 x.2.2 := by
    intro x hx
    simp at hx
    subst hx
    exact ⟨hpf, hA⟩
  have h := parse_clauses_specs hwf hne hws hx1 (by simp)
  rw [show renderSpecs [(true, sI, A)] = renderSuffix true sI from by
    simp [renderSpecs]] at h
  exact h

/-- The counterexample to claim C1 as frozen: `"[a=1] :has([b=2])"` parses to a
`Complex` selector with the `:has` inner selector as a suffix, and to no
`Descendant` selector at all. -/
theorem C1_counterexample :
    Selector.parse (chars "[a=1] :has([b=2])")
      = .ok (.complex [⟨chars "a", AttrOp.equals, chars "1"⟩]
          (some (.and [⟨chars "b", AttrOp.equals, chars "2"⟩])) none)
    ∧ (∀ anc desc, Selector.parse (chars "[a=1] :has([b=2])")
        ≠ .ok (.descendant anc desc)) := by
  constructor
  · rfl
  · intro anc desc h
    rw [show Selector.parse (chars "[a=1] :has([b=2])")
        = .ok (.complex [⟨chars "a", AttrOp.equals, chars "1"⟩]
            (some (.and [⟨chars "b", AttrOp.equals, chars "2"⟩])) none) from rfl] at h
    injection h with h
    exact Selector.noConfusion h

/-- Witness for C1 at the concrete input `"[a=1] :has([b=2])"`. -/
theorem C1_witness :
    Selector.parse (clausesRender [⟨chars "a", AttrOp.equals, chars "1"⟩] ++ [' ']
        ++ renderSuffix true (chars "[b=2]"))
      = .ok (.complex [⟨chars "a", AttrOp.equals, chars "1"⟩]
          (some (.and [⟨chars "b", AttrOp.equals, chars "2"⟩])) none) :=
  C1_ws_before_pseudo_merges [⟨chars "a", AttrOp.equals, chars "1"⟩] [' ']
    (chars "[b=2]") (.and [⟨chars "b", AttrOp.equals, chars "2"⟩])
    (by decide) (by decide) (by decide) (by decide) (by decide)
    (by have h := ParsesTo_clauses
          (show ∀ c ∈ [⟨chars "b", AttrOp.equals, chars "2"⟩], wfClause c from by decide)
          (by decide)
        exact (show clausesRender [⟨chars "b", AttrOp.equals, chars "2"⟩]
          = chars "[b=2]" from by decide) ▸ h)

/-- Claim C2 (code bug): `Selector::parse` is not total.  On the input `x="`
the legacy fallback strips quotes from the one-character value `"` by taking
the Rust slice `value[1..0]`, which panics; the embedding reaches the
`panicked` state rather than `Ok` or `Err`. -/
theorem C2_parse_panics_on_lone_quote : Selector.parse (chars "x=\"") = .panicked := rfl

/-- Claim C3: the child combinator binds tighter than the descendant
combinator and chains are left-associative: `A > B C` (with single spaces)
parses as `Descendant(Child(A, B), C)` for all attribute-clause sequences
`A`, `B`, `C` accepted by the grammar. -/
theorem C3_child_binds_tighter (cs1 cs2 cs3 : List AttrClause)
    (hw1 : ∀ c ∈ cs1, wfClause c) (hn1 : cs1 ≠ [])
    (hw2 : ∀ c ∈ cs2, wfClause c) (hn2 : cs2 ≠ [])
    (hw3 : ∀ c ∈ cs3, wfClause c) (hn3 : cs3 ≠ []) :
    Selector.parse (clausesRender cs1 ++ [' ', '>', ' '] ++ clausesRender cs2
        ++ [' '] ++ clausesRender cs3)
      = .ok (.descendant (.child (.and cs1) (.and cs2)) (.and cs3)) := by
  rw [show clausesRender cs1 ++ [' ', '>', ' '] ++ clausesRender cs2 ++ [' ']
      ++ clausesRender cs3
    = clausesRender cs1 ++ (' ' :: '>' :: ' ' :: (clausesRender cs2
        ++ (' ' :: clausesRender cs3))) from by simp [List.append_assoc]]
  exact parse_child_desc_general hw1 hn1 hw2 hn2 hw3 hn3

/-- Witness for C3 at the concrete input `"[class=A] > [class=B] [text=T]"`. -/
theorem C3_witness :
    Selector.parse (clausesRender [⟨chars "class", AttrOp.equals, chars "A"⟩]
        ++ [' ', '>', ' '] ++ clausesRender [⟨chars "class", AttrOp.equals, chars "B"⟩]
        ++ [' '] ++ clausesRender [⟨chars "text", AttrOp.equals, chars "T"⟩])
      = .ok (.descendant
          (.child (.and [⟨chars "class", AttrOp.equals, chars "A"⟩])
            (.and [⟨chars "class", AttrOp.equals, chars "B"⟩]))
          (.and [⟨chars "text", AttrOp.equals, chars "T"⟩])) :=
  C3_child_binds_tighter
    [⟨chars "class", AttrOp.equals, chars "A"⟩]
    [⟨chars "class", AttrOp.equals, chars "B"⟩]
    [⟨chars "text", AttrOp.equals, chars "T"⟩]
    (by decide) (by decide) (by decide) (by decide) (by decide) (by decide)

/-- Claim C4: among multiple `:has(...)`/`:not(...)` suffixes of one complex
selector, the last suffix of each kind wins: the `has` field of the resulting
`Complex` value is the inner selector of the last `:has` suffix and the `not`
field that of the last `:not` suffix; earlier ones are discarded. -/
theorem C4_last_suffix_wins (cs : List AttrClause)
    (specs : List (Bool × Chars × Selector))
    (hwf : ∀ c ∈ cs, wfClause c) (hne : cs ≠ [])
    (hspecs : ∀ x ∈ specs, parenFree x.2.1 ∧ ParsesTo x.2.1 x.2.2)
    (hlen : 2 ≤ specs.length) :
    Selector.parse (clausesRender cs ++ renderSpecs specs)
      = .ok (.complex cs
          (((specs.filter (fun x => x.1)).getLast?).map (fun x => x.2.2))
          (((specs.filter (fun x => !x.1)).getLast?).map (fun x => x.2.2))) := by
  have hsne : specs ≠ [] := by
    cases specs with
    | nil => simp at hlen
    | cons _ _ => simp
  have hws0 : ∀ c ∈ ([] : Chars), c.isWhitespace = true := by simp
  have h := parse_clauses_specs hwf hne hws0 hspecs hsne
  rw [List.append_nil] at h
  rw [applySuffixes_eq] at h
  dsimp only [] at h
  rw [option_or_none, option_or_none, map_filter_getLast_has,
    map_filter_getLast_neg] at h
  exact h

/-- Witness for C4 at the concrete input `"[a=1]:has([b=2]):has([c=3])"`:
the `has` field is the inner selector of the second (last) `:has` suffix. -/
theorem C4_witness :
    Selector.parse (clausesRender [⟨chars "a", AttrOp.equals, chars "1"⟩]
        ++ renderSpecs
          [(true, chars "[b=2]", .and [⟨chars "b", AttrOp.equals, chars "2"⟩]),
           (true, chars "[c=3]", .and [⟨chars "c", AttrOp.equals, chars "3"⟩])])
      = .ok (.complex [⟨chars "a", AttrOp.equals, chars "1"⟩]
          (some (.and [⟨chars "c", AttrOp.equals, chars "3"⟩])) none) :=
  C4_last_suffix_wins [⟨chars "a", AttrOp.equals, chars "1"⟩]
    [(true, chars "[b=2]", .and [⟨chars "b", AttrOp.equals, chars "2"⟩]),
     (true, chars "[c=3]", .and [⟨chars "c", AttrOp.equals, chars "3"⟩])]
    (by decide) (by decide)
    (by intro x hx
        simp at hx
        rcases hx with rfl | rfl
        · exact ⟨by decide,
            (show clausesRender [⟨chars "b", AttrOp.equals, chars "2"⟩]
                = chars "[b=2]" from by decide)
              ▸ ParsesTo_clauses (by decide) (by decide)⟩
        · exact ⟨by decide,
            (show clausesRender [⟨chars "c", AttrOp.equals, chars "3"⟩]
                = chars "[c=3]" from by decide)
              ▸ ParsesTo_clauses (by decide) (by decide)⟩)
    (by decide)

/-- Claim C5: the legacy grammar is tried exactly when the primary grammar
fails (the first conjunct is the definitional two-phase structure of
`Selector::parse`); the legacy grammar accepts an input iff the trimmed input
contains `=`, contains neither `[` nor `:`, and after splitting at the first
`=`, trimming, and stripping one layer of matching surrounding quotes, both
field and value are non-empty; and every legacy parse error carries exactly
the message `"Invalid selector format: <input>"`. -/
theorem C5_legacy_fallback (s : Chars) :
    (Selector.parse s
      = match parserParseF (10 * s.length + 19) (trimChars s) with
        | .ok sel => .ok sel
        | .fail _ => parseLegacy (trimChars s)
        | .panicked => .panicked
        | .nofuel => .nofuel) ∧
    ((∃ sel, parseLegacy (trimChars s) = .ok sel) ↔ legacySpecAccepts s = true) ∧
    (∀ e, parseLegacy (trimChars s) = .fail e →
      e = "Invalid selector format: " ++ (trimChars s).asString) :=
  ⟨selParse_unfold s, parseLegacy_ok_iff (trimChars s),
    fun _ he => parseLegacy_fail_msg he⟩

/-- Claim C6: matching is total and never errors.  A selector never matches a
non-element node; a clause whose resolved attribute is absent evaluates to
false; a `Child` selector evaluates to false when the parent is missing or is
not an element; a `Descendant` selector evaluates to false when no proper
ancestor matches the ancestor selector. -/
theorem C6_matching_total (sel pSel cSel aSel dSel : Selector) (cl : AttrClause)
    (locN locC locC2 locD : NodeLoc) (n pn : XNode) (rest : List XNode)
    (hN : locN.node.isElement = false)
    (hAttr : n.attribute (resolveAttr cl.attr) = none)
    (hC : locC.ancestors = [])
    (hC2 : locC2.ancestors = pn :: rest) (hpn : pn.isElement = false)
    (hD : ∀ l ∈ locD.ancestorLocs, aSel.matches l = false) :
    sel.matches locN = false ∧
    cl.matchesNode n = false ∧
    (Selector.child pSel cSel).matches locC = false ∧
    (Selector.child pSel cSel).matches locC2 = false ∧
    (Selector.descendant aSel dSel).matches locD = false :=
  ⟨matches_non_element hN,
   by simp [AttrClause.matchesNode, hAttr],
   matches_child_no_parent pSel cSel locC hC,
   matches_child_parent_not_element pSel cSel locC2 hC2 hpn,
   matches_descendant_no_ancestor aSel dSel locD hD⟩

/-- Witness for C6 at concrete nodes: a text node, an element without the
attribute `a`, an element without a parent, an element whose parent is a text
node, and an element with no ancestors. -/
theorem C6_witness :
    Selector.matches (.and []) ⟨.text [], []⟩ = false ∧
    AttrClause.matchesNode ⟨chars "a", AttrOp.equals, chars "1"⟩ (.element [] [])
      = false ∧
    (Selector.child (.and []) (.and [])).matches ⟨.element [] [], []⟩ = false ∧
    (Selector.child (.and []) (.and [])).matches ⟨.element [] [], [.text []]⟩
      = false ∧
    Selector.matches
      (.descendant (.and [⟨chars "x", AttrOp.equals, chars "1"⟩]) (.and []))
      ⟨.element [] [], []⟩ = false :=
  C6_matching_total (.and []) (.and []) (.and [])
    (.and [⟨chars "x", AttrOp.equals, chars "1"⟩]) (.and [])
    ⟨chars "a", AttrOp.equals, chars "1"⟩
    ⟨.text [], []⟩ ⟨.element [] [], []⟩ ⟨.element [] [], [.text []]⟩
    ⟨.element [] [], []⟩ (.element [] []) (.text []) []
    rfl (by decide) rfl rfl rfl
    (by intro l hl
        simp [NodeLoc.ancestorLocs, ancLocs] at hl)

/-- Claim C7: empty attribute values are rejected exactly for the substring
operators: `[text^=]`, `[text$=]`, `[text*=]` are parse errors, while
`[text=]` parses to a clause with empty value, and that clause matches a node
iff the node's `text` attribute is present and equal to the empty string. -/
theorem C7_empty_value_operators :
    Selector.parse (chars "[text^=]") = .fail "Invalid selector format: [text^=]" ∧
    Selector.parse (chars "[text$=]") = .fail "Invalid selector format: [text$=]" ∧
    Selector.parse (chars "[text*=]") = .fail "Invalid selector format: [text*=]" ∧
    Selector.parse (chars "[text=]") = .ok (.and [⟨chars "text", AttrOp.equals, []⟩]) ∧
    ∀ nd : XNode,
      AttrClause.matchesNode ⟨chars "text", AttrOp.equals, []⟩ nd = true
        ↔ nd.attribute (chars "text") = some [] := by
  refine ⟨rfl, rfl, rfl, rfl, ?_⟩
  intro nd
  simp only [AttrClause.matchesNode]
  rw [show resolveAttr (chars "text") = chars "text" from by decide]
  cases hn : nd.attribute (chars "text") with
  | none => simp
  | some v => simp

/-- Claim C8: `Has(inner)` matches an element node iff some proper descendant
matches `inner`; a leaf element never matches any `Has` selector; and a node
matching `inner` itself does not thereby match `Has(inner)` (witnessed by a
leaf that matches the inner selector but not the `Has`). -/
theorem C8_has_proper_descendant (inner : Selector) (loc : NodeLoc)
    (hel : loc.node.isElement = true) :
    ((Selector.has inner).matches loc = true
      ↔ ∃ l ∈ properDescLocs loc, inner.matches l = true) ∧
    (loc.node.childNodes = [] → (Selector.has inner).matches loc = false) ∧
    (Selector.matches (.and [⟨chars "text", AttrOp.equals, chars "X"⟩])
        ⟨.element [(chars "text", chars "X")] [], []⟩ = true
      ∧ Selector.matches (.has (.and [⟨chars "text", AttrOp.equals, chars "X"⟩]))
          ⟨.element [(chars "text", chars "X")] [], []⟩ = false) := by
  obtain ⟨nd, anc⟩ := loc
  cases nd with
  | text t => cases hel
  | element a cs =>
    refine ⟨?_, ?_, ?_, ?_⟩
    · rw [matches_has_elem, hasDescendantMatching_eq, List.any_eq_true]
    · intro hleaf
      have hcs : cs = [] := by simpa [XNode.childNodes] using hleaf
      subst hcs
      rw [matches_has_elem]
      rw [show hasDescendantMatching inner ⟨.element a [], anc⟩
          = childScanMatching inner [] (XNode.element a [] :: anc) from by
        simp [hasDescendantMatching]]
      simp [childScanMatching]
    · simp [Selector.matches, AttrClause.matchesNode, XNode.attribute,
        XNode.isElement, resolveAttr]
      decide
    · simp [Selector.matches, hasDescendantMatching, childScanMatching,
        XNode.isElement]

/-- Witness for C8: an element with one child carrying `a="1"`; `:has([a=1])`
matches it and the proper-descendant characterisation holds. -/
theorem C8_witness :
    ((Selector.has (.and [⟨chars "a", AttrOp.equals, chars "1"⟩])).matches
        ⟨.element [] [.element [(chars "a", chars "1")] []], []⟩ = true
      ↔ ∃ l ∈ properDescLocs ⟨.element [] [.element [(chars "a", chars "1")] []], []⟩,
          (Selector.and [⟨chars "a", AttrOp.equals, chars "1"⟩]).matches l = true) ∧
    ((XNode.element [] [.element [(chars "a", chars "1")] []]).childNodes = [] →
      (Selector.has (.and [⟨chars "a", AttrOp.equals, chars "1"⟩])).matches
        ⟨.element [] [.element [(chars "a", chars "1")] []], []⟩ = false) ∧
    (Selector.matches (.and [⟨chars "text", AttrOp.equals, chars "X"⟩])
        ⟨.element [(chars "text", chars "X")] [], []⟩ = true
      ∧ Selector.matches (.has (.and [⟨chars "text", AttrOp.equals, chars "X"⟩]))
          ⟨.element [(chars "text", chars "X")] [], []⟩ = false) :=
  C8_has_proper_descendant (.and [⟨chars "a", AttrOp.equals, chars "1"⟩])
    ⟨.element [] [.element [(chars "a", chars "1")] []], []⟩ rfl

/-- Claim C9: the legacy and primary grammars agree on simple equality
selectors: `"text=Submit"` (accepted by the legacy fallback after the primary
grammar fails) and `"[text=Submit]"` (primary grammar) produce the same AST
`And([text = Submit])`. -/
theorem C9_legacy_primary_agree :
    Selector.parse (chars "text=Submit")
      = .ok (.and [⟨chars "text", AttrOp.equals, chars "Submit"⟩]) ∧
    Selector.parse (chars "[text=Submit]")
      = .ok (.and [⟨chars "text", AttrOp.equals, chars "Submit"⟩]) ∧
    parseLegacy (chars "text=Submit")
      = .ok (.and [⟨chars "text", AttrOp.equals, chars "Submit"⟩]) ∧
    parserParseF (fuelOf (chars "text=Submit")) (chars "text=Submit")
      = .fail "Expected attribute clause, :has() or :not()" :=
  ⟨rfl, rfl, rfl, rfl⟩

/-- Claim C10: a bare `:has(...)` followed immediately (no whitespace) by a
`:not(...)` is not merged into one complex selector: `":has(A):not(B)"`
parses as `Descendant(Has(A), Not(B))` for all grammar-accepted inner
selector strings `A` and `B`. -/
theorem C10_adjacent_pseudo_split (sA sB : Chars) (A B : Selector)
    (hpfA : parenFree sA) (hA : ParsesTo sA A)
    (hpfB : parenFree sB) (hB : ParsesTo sB B) :
    Selector.parse (hasToken ++ sA ++ [')'] ++ notToken ++ sB ++ [')'])
      = .ok (.descendant (.has A) (.not B)) := by
  rw [show hasToken ++ sA ++ [')'] ++ notToken ++ sB ++ [')']
    = hasToken ++ (sA ++ (')' :: (notToken ++ (sB ++ (')' :: [])))))
    from by simp [List.append_assoc]]
  exact parse_has_not_general hpfA hA hpfB hB

/-- Witness for C10 at the concrete input `":has([a=1]):not([b=2])"`. -/
theorem C10_witness :
    Selector.parse (hasToken ++ chars "[a=1]" ++ [')'] ++ notToken
        ++ chars "[b=2]" ++ [')'])
      = .ok (.descendant (.has (.and [⟨chars "a", AttrOp.equals, chars "1"⟩]))
          (.not (.and [⟨chars "b", AttrOp.equals, chars "2"⟩]))) :=
  C10_adjacent_pseudo_split (chars "[a=1]") (chars "[b=2]")
    (.and [⟨chars "a", AttrOp.equals, chars "1"⟩])
    (.and [⟨chars "b", AttrOp.equals, chars "2"⟩])
    (by decide)
    (by have h := ParsesTo_clauses
          (show ∀ c ∈ [⟨chars "a", AttrOp.equals, chars "1"⟩], wfClause c from by decide)
          (by decide)
        exact (show clausesRender [⟨chars "a", AttrOp.equals, chars "1"⟩]
          = chars "[a=1]" from by decide) ▸ h)
    (by decide)
    (by have h := ParsesTo_clauses
          (show ∀ c ∈ [⟨chars "b", AttrOp.equals, chars "2"⟩], wfClause c from by decide)
          (by decide)
        exact (show clausesRender [⟨chars "b", AttrOp.equals, chars "2"⟩]
          = chars "[b=2]" from by decide) ▸ h)
